import Mathlib

/-!
Verification of the seeded stereo-correlation core (`stereo_corr.cc`) and the
session helpers (`StereoSession.cc`) of the stereo pipeline.

The development shallowly embeds the code that computes per-tile search
ranges from a coarse ("seed") disparity field, the tiled dispatch layer, the
low-resolution disparity caching logic, the interest-point based global
search-range estimation, and the crop-window driven behavior of the stereo
session.  Pixel coordinates are integers, sub-pixel quantities (the C++
`double`/`float` values) are rationals.
-/

/-- An axis-aligned box with min corner `(x0, y0)` and max corner `(x1, y1)`.
Models `vw::BBox2i` (over `ℤ`) and `vw::BBox2`/`vw::BBox2f` (over `ℚ`). -/
structure Box (α : Type) where
  x0 : α
  y0 : α
  x1 : α
  y1 : α
deriving DecidableEq, Repr

/-- `BBox::expand(n)`: move the min corner down and the max corner up by `n`. -/
def Box.expand {α : Type} [Add α] [Sub α] (b : Box α) (n : α) : Box α :=
  ⟨b.x0 - n, b.y0 - n, b.x1 + n, b.y1 + n⟩

/-- `BBox::crop(w)`: clamp the min corner up to `w.min` and the max corner
down to `w.max` (VW does not re-normalize, so the result may be inverted). -/
def Box.crop {α : Type} [LinearOrder α] (b w : Box α) : Box α :=
  ⟨max b.x0 w.x0, max b.y0 w.y0, min b.x1 w.x1, min b.y1 w.y1⟩

/-- `BBox::grow(b)`: enlarge to the componentwise union of the two boxes. -/
def Box.union {α : Type} [LinearOrder α] (a b : Box α) : Box α :=
  ⟨min a.x0 b.x0, min a.y0 b.y0, max a.x1 b.x1, max a.y1 b.y1⟩

/-- `BBox::contains(p)`: half-open containment test, as in VW. -/
def Box.containsPt {α : Type} [LinearOrder α] (b : Box α) (p : α × α) : Prop :=
  b.x0 ≤ p.1 ∧ p.1 < b.x1 ∧ b.y0 ≤ p.2 ∧ p.2 < b.y1

instance {α : Type} [LinearOrder α] (b : Box α) (p : α × α) :
    Decidable (b.containsPt p) := by
  unfold Box.containsPt; infer_instance

/-- `BBox::empty()`: true when some axis has max ≤ min. -/
def Box.isEmpty {α : Type} [LinearOrder α] (b : Box α) : Prop :=
  b.x1 ≤ b.x0 ∨ b.y1 ≤ b.y0

instance {α : Type} [LinearOrder α] (b : Box α) : Decidable b.isEmpty := by
  unfold Box.isEmpty; infer_instance

/-- Box containment (`a` inside `b`), corner-wise. -/
def Box.subset {α : Type} [LE α] (a b : Box α) : Prop :=
  b.x0 ≤ a.x0 ∧ b.y0 ≤ a.y0 ∧ a.x1 ≤ b.x1 ∧ a.y1 ≤ b.y1

instance (a b : Box ℤ) : Decidable (a.subset b) := by
  unfold Box.subset; infer_instance

instance (a b : Box ℚ) : Decidable (a.subset b) := by
  unfold Box.subset; infer_instance

/-- `BBox::width()`. -/
def Box.width {α : Type} [Sub α] (b : Box α) : α := b.x1 - b.x0

/-- `BBox::height()`. -/
def Box.height {α : Type} [Sub α] (b : Box α) : α := b.y1 - b.y0

/-- The sentinel `BBox2i(0, 0, 0, 0)` that stereo settings use for an
unset crop window. -/
def zeroBox : Box ℤ := ⟨0, 0, 0, 0⟩

/-- Cast an integer box to a rational box. -/
def Box.toQ (b : Box ℤ) : Box ℚ := ⟨(b.x0 : ℚ), (b.y0 : ℚ), (b.x1 : ℚ), (b.y1 : ℚ)⟩

/-- `vw::grow_bbox_to_int`: round a real box outward to integers
(floor the min corner, ceil the max corner). -/
def grow_bbox_to_int (b : Box ℚ) : Box ℤ := ⟨⌊b.x0⌋, ⌊b.y0⌋, ⌈b.x1⌉, ⌈b.y1⌉⟩

/-- C++ `double`-to-`int32` conversion: truncation toward zero. -/
def qtrunc (q : ℚ) : ℤ := if 0 ≤ q then ⌊q⌋ else ⌈q⌉

/-! ### Min/max folds, used to model VW's `EWMinMaxAccumulator` -/

theorem foldl_min_le_init {α : Type} [LinearOrder α] (l : List α) (a : α) :
    l.foldl min a ≤ a := by
  induction l generalizing a with
  | nil => exact le_refl a
  | cons x xs ih => exact le_trans (ih (min a x)) (min_le_left a x)

theorem foldl_min_le_mem {α : Type} [LinearOrder α] {l : List α} {v : α} (a : α)
    (hv : v ∈ l) : l.foldl min a ≤ v := by
  induction l generalizing a with
  | nil => cases hv
  | cons x xs ih =>
    rcases List.mem_cons.mp hv with h | h
    · subst h
      exact le_trans (foldl_min_le_init xs (min a v)) (min_le_right a v)
    · exact ih (min a x) h

theorem le_foldl_min {α : Type} [LinearOrder α] {l : List α} {c : α} (a : α)
    (ha : c ≤ a) (hl : ∀ v ∈ l, c ≤ v) : c ≤ l.foldl min a := by
  induction l generalizing a with
  | nil => exact ha
  | cons x xs ih =>
    exact ih (min a x) (le_min ha (hl x (List.mem_cons_self _ _)))
      (fun v hv => hl v (List.mem_cons_of_mem x hv))

theorem init_le_foldl_max {α : Type} [LinearOrder α] (l : List α) (a : α) :
    a ≤ l.foldl max a := by
  induction l generalizing a with
  | nil => exact le_refl a
  | cons x xs ih => exact le_trans (le_max_left a x) (ih (max a x))

theorem mem_le_foldl_max {α : Type} [LinearOrder α] {l : List α} {v : α} (a : α)
    (hv : v ∈ l) : v ≤ l.foldl max a := by
  induction l generalizing a with
  | nil => cases hv
  | cons x xs ih =>
    rcases List.mem_cons.mp hv with h | h
    · subst h
      exact le_trans (le_max_right a v) (init_le_foldl_max xs (max a v))
    · exact ih (max a x) h

theorem foldl_max_le {α : Type} [LinearOrder α] {l : List α} {c : α} (a : α)
    (ha : a ≤ c) (hl : ∀ v ∈ l, v ≤ c) : l.foldl max a ≤ c := by
  induction l generalizing a with
  | nil => exact ha
  | cons x xs ih =>
    exact ih (max a x) (max_le ha (hl x (List.mem_cons_self _ _)))
      (fun v hv => hl v (List.mem_cons_of_mem x hv))

/-! ### Disparity value ranges -/

/-- The min/max bounding box of a list of 2-vectors; the zero box for the
empty list.  This is the accumulation performed by
`vw::stereo::get_disparity_range`, which returns `BBox2f(0,0,0,0)` when the
image holds no valid pixel. -/
def rangeOfList : List (ℚ × ℚ) → Box ℚ
  | [] => ⟨0, 0, 0, 0⟩
  | v :: vs =>
    ⟨(vs.map Prod.fst).foldl min v.1, (vs.map Prod.snd).foldl min v.2,
     (vs.map Prod.fst).foldl max v.1, (vs.map Prod.snd).foldl max v.2⟩

theorem rangeOfList_ordered (l : List (ℚ × ℚ)) :
    (rangeOfList l).x0 ≤ (rangeOfList l).x1 ∧
    (rangeOfList l).y0 ≤ (rangeOfList l).y1 := by
  cases l with
  | nil => exact ⟨le_refl 0, le_refl 0⟩
  | cons v vs =>
    constructor
    · exact le_trans (foldl_min_le_init _ v.1) (init_le_foldl_max _ v.1)
    · exact le_trans (foldl_min_le_init _ v.2) (init_le_foldl_max _ v.2)

theorem rangeOfList_mem_bounds {l : List (ℚ × ℚ)} {v : ℚ × ℚ} (hv : v ∈ l) :
    (rangeOfList l).x0 ≤ v.1 ∧ v.1 ≤ (rangeOfList l).x1 ∧
    (rangeOfList l).y0 ≤ v.2 ∧ v.2 ≤ (rangeOfList l).y1 := by
  cases l with
  | nil => cases hv
  | cons w ws =>
    rcases List.mem_cons.mp hv with h | h
    · subst h
      exact ⟨foldl_min_le_init _ v.1, init_le_foldl_max _ v.1,
             foldl_min_le_init _ v.2, init_le_foldl_max _ v.2⟩
    · refine ⟨foldl_min_le_mem _ ?_, mem_le_foldl_max _ ?_,
              foldl_min_le_mem _ ?_, mem_le_foldl_max _ ?_⟩
      · exact List.mem_map_of_mem _ h
      · exact List.mem_map_of_mem _ h
      · exact List.mem_map_of_mem _ h
      · exact List.mem_map_of_mem _ h

theorem rangeOfList_lb {l : List (ℚ × ℚ)} {cx cy : ℚ}
    (hne : l ≠ []) (h : ∀ v ∈ l, cx ≤ v.1 ∧ cy ≤ v.2) :
    cx ≤ (rangeOfList l).x0 ∧ cy ≤ (rangeOfList l).y0 := by
  cases l with
  | nil => exact absurd rfl hne
  | cons v vs =>
    constructor
    · refine le_foldl_min _ (h v (List.mem_cons_self _ _)).1 ?_
      intro w hw
      rcases List.mem_map.mp hw with ⟨u, hu, rfl⟩
      exact (h u (List.mem_cons_of_mem v hu)).1
    · refine le_foldl_min _ (h v (List.mem_cons_self _ _)).2 ?_
      intro w hw
      rcases List.mem_map.mp hw with ⟨u, hu, rfl⟩
      exact (h u (List.mem_cons_of_mem v hu)).2

theorem rangeOfList_ub {l : List (ℚ × ℚ)} {cx cy : ℚ}
    (hne : l ≠ []) (h : ∀ v ∈ l, v.1 ≤ cx ∧ v.2 ≤ cy) :
    (rangeOfList l).x1 ≤ cx ∧ (rangeOfList l).y1 ≤ cy := by
  cases l with
  | nil => exact absurd rfl hne
  | cons v vs =>
    constructor
    · refine foldl_max_le _ (h v (List.mem_cons_self _ _)).1 ?_
      intro w hw
      rcases List.mem_map.mp hw with ⟨u, hu, rfl⟩
      exact (h u (List.mem_cons_of_mem v hu)).1
    · refine foldl_max_le _ (h v (List.mem_cons_self _ _)).2 ?_
      intro w hw
      rcases List.mem_map.mp hw with ⟨u, hu, rfl⟩
      exact (h u (List.mem_cons_of_mem v hu)).2

/-! ### Disparity fields -/

/-- A masked disparity field (`ImageView<PixelMask<Vector2i>>`): dimensions
plus a per-cell value, `none` meaning the invalid pixel. -/
structure DispField where
  cols : ℤ
  rows : ℤ
  px : ℤ → ℤ → Option (ℤ × ℤ)

/-- `bounding_box(image)`: the pixel extent of a field. -/
def seed_extent (d : DispField) : Box ℤ := ⟨0, 0, d.cols, d.rows⟩

/-- The column-major list of pixel coordinates of an integer window
(empty when the window is inverted or degenerate). -/
def coordsIn (b : Box ℤ) : List (ℤ × ℤ) :=
  (List.range (b.x1 - b.x0).toNat).flatMap (fun i =>
    (List.range (b.y1 - b.y0).toNat).map (fun j =>
      (b.x0 + (i : ℤ), b.y0 + (j : ℤ))))

/-- The valid disparity values of a field inside a window. -/
def validVals (f : ℤ → ℤ → Option (ℤ × ℤ)) (b : Box ℤ) : List (ℤ × ℤ) :=
  (coordsIn b).filterMap (fun c => f c.1 c.2)

/-- `vw::stereo::get_disparity_range` applied to `crop(field, window)`:
the bounding box of the valid disparity vectors in the window, the zero box
when none is valid. -/
def get_disparity_range (f : ℤ → ℤ → Option (ℤ × ℤ)) (b : Box ℤ) : Box ℚ :=
  rangeOfList ((validVals f b).map (fun v => ((v.1 : ℚ), (v.2 : ℚ))))

/-! ### The tile search-range refiner (`SeededCorrelatorView::prerasterize_helper`) -/

/-- The per-tile inputs of the refiner: the measured per-axis upscale factor
(`m_upscale_factor`), the coarse disparity field (`m_sub_disp`) and the
full-resolution tile bounding box (`bbox`). -/
structure SeedSetup where
  upx : ℚ
  upy : ℚ
  sub_disp : DispField
  tile : Box ℤ

/-- The low-resolution window of a tile:
`BBox2i seed_bbox(elem_quot(bbox.min(), m_upscale_factor), elem_quot(bbox.max(), m_upscale_factor));
seed_bbox.expand(1); seed_bbox.crop(m_seed_bbox);`
(the `BBox2i` constructor truncates the quotients toward zero). -/
def seed_bbox_of (s : SeedSetup) : Box ℤ :=
  (Box.expand ⟨qtrunc ((s.tile.x0 : ℚ) / s.upx), qtrunc ((s.tile.y0 : ℚ) / s.upy),
               qtrunc ((s.tile.x1 : ℚ) / s.upx), qtrunc ((s.tile.y1 : ℚ) / s.upy)⟩ 1).crop
    (seed_extent s.sub_disp)

/-- Spread widening without local homography:
`local_search_range.min() -= spread.max(); local_search_range.max() += spread.max();`
where `spread = get_disparity_range(spread_in_box)`.  With no spread field the
range is unchanged. -/
def widen_by_spread (spread : Option DispField) (sb : Box ℤ) (r : Box ℚ) : Box ℚ :=
  match spread with
  | none => r
  | some sp =>
    let spr := get_disparity_range sp.px sb
    ⟨r.x0 - spr.x1, r.y0 - spr.y1, r.x1 + spr.x1, r.y1 + spr.y1⟩

/-- The final steps of the refiner:
`local_search_range = grow_bbox_to_int(local_search_range);
local_search_range.expand(1);
local_search_range.min() = floor(elem_prod(local_search_range.min(), m_upscale_factor));
local_search_range.max() = ceil(elem_prod(local_search_range.max(), m_upscale_factor));` -/
def finalize_range (r : Box ℚ) (upx upy : ℚ) : Box ℤ :=
  let e := Box.expand (grow_bbox_to_int r) 1
  ⟨⌊(e.x0 : ℚ) * upx⌋, ⌊(e.y0 : ℚ) * upy⌋, ⌈(e.x1 : ℚ) * upx⌉, ⌈(e.y1 : ℚ) * upy⌉⟩

/-- The refiner without local homography (`use_local_homography == false`):
extract the seed window, take the disparity range in it, widen by the spread
range if a spread field is present, then round/expand/scale. -/
def refine_no_hom (s : SeedSetup) (spread : Option DispField) : Box ℤ :=
  let sb := seed_bbox_of s
  finalize_range (widen_by_spread spread sb (get_disparity_range s.sub_disp.px sb))
    s.upx s.upy

/-- The spread-size sanity check of `prerasterize_helper`, verbatim:
`has_sub_disp_spread && m_sub_disp_spread.cols() != m_sub_disp.cols() &&
m_sub_disp_spread.rows() != m_sub_disp.rows()` throws an `ArgumentErr`. -/
def prerasterize_helper_guard (sub sp : DispField) : Except String Unit :=
  if (sp.cols ≠ 0 ∧ sp.rows ≠ 0) ∧ sp.cols ≠ sub.cols ∧ sp.rows ≠ sub.rows
  then Except.error "stereo_corr: D_sub and D_sub_spread must have equal sizes."
  else Except.ok ()

/-- An all-valid all-zero spread field, the neutral element of spread
widening. -/
def zero_spread (cols rows : ℤ) : DispField :=
  ⟨cols, rows, fun _ _ => some (0, 0)⟩

/-! ### Local homography path -/

/-- A 3x3 projective matrix (`vw::Matrix3x3`). -/
structure Mat3 where
  m00 : ℚ
  m01 : ℚ
  m02 : ℚ
  m10 : ℚ
  m11 : ℚ
  m12 : ℚ
  m20 : ℚ
  m21 : ℚ
  m22 : ℚ
deriving DecidableEq, Repr

/-- First component of `M * (x, y, 1)`. -/
def hom_num_x (h : Mat3) (x y : ℚ) : ℚ := h.m00 * x + h.m01 * y + h.m02

/-- Second component of `M * (x, y, 1)`. -/
def hom_num_y (h : Mat3) (x y : ℚ) : ℚ := h.m10 * x + h.m11 * y + h.m12

/-- Third (homogeneous) component of `M * (x, y, 1)`. -/
def hom_den (h : Mat3) (x y : ℚ) : ℚ := h.m20 * x + h.m21 * y + h.m22

/-- The per-pixel transformed disparity: the disparity `d` at pixel
`(i, j)` becomes `H((i, j) + d) - (i, j)` with homogeneous normalization and
rounding to integers. -/
def tdisp (h : Mat3) (i j : ℤ) (d : ℤ × ℤ) : ℤ × ℤ :=
  (round (hom_num_x h ((i : ℚ) + (d.1 : ℚ)) ((j : ℚ) + (d.2 : ℚ)) /
      hom_den h ((i : ℚ) + (d.1 : ℚ)) ((j : ℚ) + (d.2 : ℚ))) - i,
   round (hom_num_y h ((i : ℚ) + (d.1 : ℚ)) ((j : ℚ) + (d.2 : ℚ)) /
      hom_den h ((i : ℚ) + (d.1 : ℚ)) ((j : ℚ) + (d.2 : ℚ))) - j)

/-- Modelled from the spec: `transform_disparities` (declared in
`asp/Core/LocalHomography.h`, whose implementation is not among the sources)
applies the tile homography to each valid seed disparity: the disparity `d`
at pixel `p` becomes `H(p + d) - p`, with coordinates rounded to integers
post-transform (`do_round` is true at every call site). -/
def transform_disparities (h : Mat3) (f : ℤ → ℤ → Option (ℤ × ℤ)) :
    ℤ → ℤ → Option (ℤ × ℤ) :=
  fun i j => (f i j).map (tdisp h i j)

/-- `PixelMask` addition: valid only where both operands are valid. -/
def mask_add (f g : ℤ → ℤ → Option (ℤ × ℤ)) : ℤ → ℤ → Option (ℤ × ℤ) :=
  fun i j =>
    match f i j, g i j with
    | some a, some b => some (a.1 + b.1, a.2 + b.2)
    | _, _ => none

/-- `PixelMask` subtraction: valid only where both operands are valid. -/
def mask_sub (f g : ℤ → ℤ → Option (ℤ × ℤ)) : ℤ → ℤ → Option (ℤ × ℤ) :=
  fun i j =>
    match f i j, g i j with
    | some a, some b => some (a.1 - b.1, a.2 - b.2)
    | _, _ => none

/-- The refiner with local homography (`use_local_homography == true`):
the range of the transformed seed window; with a spread field, the union of
the ranges of the transformed `seed + spread` and `seed - spread` windows;
then round/expand/scale. -/
def refine_hom (s : SeedSetup) (h : Mat3) (spread : Option DispField) : Box ℤ :=
  let sb := seed_bbox_of s
  let r :=
    match spread with
    | none => get_disparity_range (transform_disparities h s.sub_disp.px) sb
    | some sp =>
      Box.union
        (get_disparity_range (transform_disparities h (mask_add s.sub_disp.px sp.px)) sb)
        (get_disparity_range (transform_disparities h (mask_sub s.sub_disp.px sp.px)) sb)
  finalize_range r s.upx s.upy

/-! ### Helper lemmas about the final rounding/expansion/scaling steps -/

theorem grow_bbox_to_int_contains (r : Box ℚ) :
    ((grow_bbox_to_int r).x0 : ℚ) ≤ r.x0 ∧ ((grow_bbox_to_int r).y0 : ℚ) ≤ r.y0 ∧
    r.x1 ≤ ((grow_bbox_to_int r).x1 : ℚ) ∧ r.y1 ≤ ((grow_bbox_to_int r).y1 : ℚ) :=
  ⟨Int.floor_le r.x0, Int.floor_le r.y0, Int.le_ceil r.x1, Int.le_ceil r.y1⟩

theorem floor_mul_lt_ceil_mul {a b s : ℚ} (hab : a < b) (hs : 0 < s) :
    ⌊a * s⌋ < ⌈b * s⌉ := by
  have h1 : a * s < b * s := mul_lt_mul_of_pos_right hab hs
  have hq : (⌊a * s⌋ : ℚ) < (⌈b * s⌉ : ℚ) :=
    lt_of_le_of_lt (Int.floor_le _) (lt_of_lt_of_le h1 (Int.le_ceil _))
  exact_mod_cast hq

theorem finalize_range_nonempty {r : Box ℚ} {ux uy : ℚ}
    (hx : r.x0 ≤ r.x1) (hy : r.y0 ≤ r.y1) (hux : 0 < ux) (huy : 0 < uy) :
    ¬ (finalize_range r ux uy).isEmpty := by
  have hfx : ⌊r.x0⌋ ≤ ⌈r.x1⌉ := by
    have : (⌊r.x0⌋ : ℚ) ≤ (⌈r.x1⌉ : ℚ) :=
      le_trans (Int.floor_le _) (le_trans hx (Int.le_ceil _))
    exact_mod_cast this
  have hfy : ⌊r.y0⌋ ≤ ⌈r.y1⌉ := by
    have : (⌊r.y0⌋ : ℚ) ≤ (⌈r.y1⌉ : ℚ) :=
      le_trans (Int.floor_le _) (le_trans hy (Int.le_ceil _))
    exact_mod_cast this
  have hex : ((⌊r.x0⌋ - 1 : ℤ) : ℚ) < ((⌈r.x1⌉ + 1 : ℤ) : ℚ) := by
    push_cast
    have : (⌊r.x0⌋ : ℚ) ≤ (⌈r.x1⌉ : ℚ) := by exact_mod_cast hfx
    linarith
  have hey : ((⌊r.y0⌋ - 1 : ℤ) : ℚ) < ((⌈r.y1⌉ + 1 : ℤ) : ℚ) := by
    push_cast
    have : (⌊r.y0⌋ : ℚ) ≤ (⌈r.y1⌉ : ℚ) := by exact_mod_cast hfy
    linarith
  have h1 : ⌊((⌊r.x0⌋ - 1 : ℤ) : ℚ) * ux⌋ < ⌈((⌈r.x1⌉ + 1 : ℤ) : ℚ) * ux⌉ :=
    floor_mul_lt_ceil_mul hex hux
  have h2 : ⌊((⌊r.y0⌋ - 1 : ℤ) : ℚ) * uy⌋ < ⌈((⌈r.y1⌉ + 1 : ℤ) : ℚ) * uy⌉ :=
    floor_mul_lt_ceil_mul hey huy
  simp only [finalize_range, Box.isEmpty, Box.expand, grow_bbox_to_int, not_or]
  constructor
  · exact not_le_of_lt h1
  · exact not_le_of_lt h2

theorem finalize_range_mono {a b : Box ℚ} {ux uy : ℚ}
    (hux : 0 ≤ ux) (huy : 0 ≤ uy) (hab : a.subset b) :
    (finalize_range a ux uy).subset (finalize_range b ux uy) := by
  obtain ⟨h0, h1, h2, h3⟩ := hab
  have fx0 : ((⌊b.x0⌋ - 1 : ℤ) : ℚ) ≤ ((⌊a.x0⌋ - 1 : ℤ) : ℚ) := by
    have := Int.floor_le_floor h0
    push_cast
    have h : (⌊b.x0⌋ : ℚ) ≤ (⌊a.x0⌋ : ℚ) := by exact_mod_cast this
    linarith
  have fy0 : ((⌊b.y0⌋ - 1 : ℤ) : ℚ) ≤ ((⌊a.y0⌋ - 1 : ℤ) : ℚ) := by
    have := Int.floor_le_floor h1
    push_cast
    have h : (⌊b.y0⌋ : ℚ) ≤ (⌊a.y0⌋ : ℚ) := by exact_mod_cast this
    linarith
  have fx1 : ((⌈a.x1⌉ + 1 : ℤ) : ℚ) ≤ ((⌈b.x1⌉ + 1 : ℤ) : ℚ) := by
    have := Int.ceil_le_ceil h2
    push_cast
    have h : (⌈a.x1⌉ : ℚ) ≤ (⌈b.x1⌉ : ℚ) := by exact_mod_cast this
    linarith
  have fy1 : ((⌈a.y1⌉ + 1 : ℤ) : ℚ) ≤ ((⌈b.y1⌉ + 1 : ℤ) : ℚ) := by
    have := Int.ceil_le_ceil h3
    push_cast
    have h : (⌈a.y1⌉ : ℚ) ≤ (⌈b.y1⌉ : ℚ) := by exact_mod_cast this
    linarith
  refine ⟨?_, ?_, ?_, ?_⟩
  · exact Int.floor_le_floor (mul_le_mul_of_nonneg_right fx0 hux)
  · exact Int.floor_le_floor (mul_le_mul_of_nonneg_right fy0 huy)
  · exact Int.ceil_le_ceil (mul_le_mul_of_nonneg_right fx1 hux)
  · exact Int.ceil_le_ceil (mul_le_mul_of_nonneg_right fy1 huy)

theorem mem_validVals {f : ℤ → ℤ → Option (ℤ × ℤ)} {b : Box ℤ} {v : ℤ × ℤ}
    (hv : v ∈ validVals f b) : ∃ c ∈ coordsIn b, f c.1 c.2 = some v := by
  rcases List.mem_filterMap.mp hv with ⟨c, hc, hfc⟩
  exact ⟨c, hc, hfc⟩

theorem get_disparity_range_nonneg_max {f : ℤ → ℤ → Option (ℤ × ℤ)} {b : Box ℤ}
    (h : ∀ c ∈ coordsIn b, ∀ e : ℤ × ℤ, f c.1 c.2 = some e → 0 ≤ e.1 ∧ 0 ≤ e.2) :
    0 ≤ (get_disparity_range f b).x1 ∧ 0 ≤ (get_disparity_range f b).y1 := by
  unfold get_disparity_range
  cases hL : (validVals f b).map (fun v => ((v.1 : ℚ), (v.2 : ℚ))) with
  | nil => simp [rangeOfList]
  | cons w ws =>
    have hw : w ∈ (validVals f b).map (fun v => ((v.1 : ℚ), (v.2 : ℚ))) := by
      rw [hL]; exact List.mem_cons_self _ _
    rcases List.mem_map.mp hw with ⟨u, hu, rfl⟩
    rcases mem_validVals hu with ⟨c, hc, hfc⟩
    have := h c hc u hfc
    have hb := rangeOfList_mem_bounds hw
    rw [hL] at hb
    constructor
    · refine le_trans ?_ hb.2.1
      show (0 : ℚ) ≤ (u.1 : ℚ)
      exact_mod_cast this.1
    · refine le_trans ?_ hb.2.2.2
      show (0 : ℚ) ≤ (u.2 : ℚ)
      exact_mod_cast this.2

theorem widen_by_spread_ordered {spread : Option DispField} {sb : Box ℤ} {r : Box ℚ}
    (hr : r.x0 ≤ r.x1 ∧ r.y0 ≤ r.y1)
    (hsp : ∀ sp ∈ spread, ∀ c ∈ coordsIn sb, ∀ e : ℤ × ℤ,
      sp.px c.1 c.2 = some e → 0 ≤ e.1 ∧ 0 ≤ e.2) :
    (widen_by_spread spread sb r).x0 ≤ (widen_by_spread spread sb r).x1 ∧
    (widen_by_spread spread sb r).y0 ≤ (widen_by_spread spread sb r).y1 := by
  cases spread with
  | none => exact hr
  | some sp =>
    have hnn := get_disparity_range_nonneg_max (f := sp.px) (b := sb)
      (hsp sp (Option.mem_def.mpr rfl))
    unfold widen_by_spread
    constructor
    · dsimp only
      linarith [hr.1, hnn.1]
    · dsimp only
      linarith [hr.2, hnn.2]

/-! ### Claim C3 -/

/-- A 4x3 coarse disparity field (all cells invalid; only the dimensions
matter to the size check). -/
def c3_sub_disp : DispField := ⟨4, 3, fun _ _ => none⟩

/-- A 5x3 spread field: 5 columns against the seed's 4, same number of
rows. -/
def c3_spread : DispField := ⟨5, 3, fun _ _ => none⟩

/-- Claim C3 (code bug): the spread-size sanity check of
`prerasterize_helper` joins the two per-axis comparisons with `&&`, so a
spread field that differs from the seed field in only one axis is accepted.
At the concrete failing input (seed 4x3, spread 5x3: columns differ, rows
equal) the guard raises no error even though the claimed contract requires a
fail-fast `ArgumentErr`. -/
theorem claim_C3_guard_accepts_one_axis_mismatch :
    prerasterize_helper_guard c3_sub_disp c3_spread = Except.ok () ∧
    c3_spread.cols ≠ c3_sub_disp.cols ∧ c3_spread.cols ≠ 0 ∧ c3_spread.rows ≠ 0 := by
  refine ⟨rfl, by decide, by decide, by decide⟩

/-! ### Claim C4 -/

/-- The statement of claim C4: the refiner's final steps round the range
outward to an integer box, expand it by exactly one unit per side, and scale
it with floor on the min corner and ceil on the max corner, so the scaling
step (and the whole tail of the pipeline) never shrinks the box. -/
def ClaimC4Statement (r : Box ℚ) (ux uy : ℚ) : Prop :=
  (((grow_bbox_to_int r).x0 : ℚ) ≤ r.x0 ∧ ((grow_bbox_to_int r).y0 : ℚ) ≤ r.y0 ∧
    r.x1 ≤ ((grow_bbox_to_int r).x1 : ℚ) ∧ r.y1 ≤ ((grow_bbox_to_int r).y1 : ℚ)) ∧
  (Box.expand (grow_bbox_to_int r) 1 =
    ⟨(grow_bbox_to_int r).x0 - 1, (grow_bbox_to_int r).y0 - 1,
     (grow_bbox_to_int r).x1 + 1, (grow_bbox_to_int r).y1 + 1⟩) ∧
  (((finalize_range r ux uy).x0 : ℚ) ≤ ((Box.expand (grow_bbox_to_int r) 1).x0 : ℚ) * ux ∧
   ((finalize_range r ux uy).y0 : ℚ) ≤ ((Box.expand (grow_bbox_to_int r) 1).y0 : ℚ) * uy ∧
   ((Box.expand (grow_bbox_to_int r) 1).x1 : ℚ) * ux ≤ ((finalize_range r ux uy).x1 : ℚ) ∧
   ((Box.expand (grow_bbox_to_int r) 1).y1 : ℚ) * uy ≤ ((finalize_range r ux uy).y1 : ℚ)) ∧
  (((finalize_range r ux uy).x0 : ℚ) ≤ (r.x0 - 1) * ux ∧
   ((finalize_range r ux uy).y0 : ℚ) ≤ (r.y0 - 1) * uy ∧
   (r.x1 + 1) * ux ≤ ((finalize_range r ux uy).x1 : ℚ) ∧
   (r.y1 + 1) * uy ≤ ((finalize_range r ux uy).y1 : ℚ)) ∧
  (∀ (s : SeedSetup) (spread : Option DispField),
    refine_no_hom s spread =
      finalize_range (widen_by_spread spread (seed_bbox_of s)
        (get_disparity_range s.sub_disp.px (seed_bbox_of s))) s.upx s.upy)

/-- Claim C4: for positive per-axis resolution scales, the refiner's final
steps behave as claimed: outward integer rounding, exactly-one-unit
expansion, and floor/ceil scaling that never shrinks the box. -/
theorem claim_C4_round_expand_scale (r : Box ℚ) (ux uy : ℚ)
    (hux : 0 < ux) (huy : 0 < uy) : ClaimC4Statement r ux uy := by
  have hexp : Box.expand (grow_bbox_to_int r) 1 =
      ⟨(grow_bbox_to_int r).x0 - 1, (grow_bbox_to_int r).y0 - 1,
       (grow_bbox_to_int r).x1 + 1, (grow_bbox_to_int r).y1 + 1⟩ := rfl
  refine ⟨grow_bbox_to_int_contains r, hexp, ⟨?_, ?_, ?_, ?_⟩, ⟨?_, ?_, ?_, ?_⟩,
    fun s spread => rfl⟩
  · exact Int.floor_le _
  · exact Int.floor_le _
  · exact Int.le_ceil _
  · exact Int.le_ceil _
  · refine le_trans (Int.floor_le _) (mul_le_mul_of_nonneg_right ?_ (le_of_lt hux))
    have h := (grow_bbox_to_int_contains r).1
    rw [hexp]
    dsimp only
    push_cast
    linarith
  · refine le_trans (Int.floor_le _) (mul_le_mul_of_nonneg_right ?_ (le_of_lt huy))
    have h := (grow_bbox_to_int_contains r).2.1
    rw [hexp]
    dsimp only
    push_cast
    linarith
  · refine le_trans (mul_le_mul_of_nonneg_right ?_ (le_of_lt hux)) (Int.le_ceil _)
    have h := (grow_bbox_to_int_contains r).2.2.1
    rw [hexp]
    dsimp only
    push_cast
    linarith
  · refine le_trans (mul_le_mul_of_nonneg_right ?_ (le_of_lt huy)) (Int.le_ceil _)
    have h := (grow_bbox_to_int_contains r).2.2.2
    rw [hexp]
    dsimp only
    push_cast
    linarith

/-- Witness for claim C4 at a concrete half-integer box and scale 2. -/
theorem claim_C4_witness :
    (0 : ℚ) < 2 ∧ ClaimC4Statement ⟨1/2, -1/2, 3/2, 5/2⟩ 2 2 :=
  ⟨by norm_num, claim_C4_round_expand_scale ⟨1/2, -1/2, 3/2, 5/2⟩ 2 2
    (by norm_num) (by norm_num)⟩

/-! ### Claim C1 -/

/-- A concrete refiner input: unit upscale factor, a 4x4 coarse field with
no valid cell, and the tile `[0,4) x [0,4)`. -/
def c1_seed : SeedSetup := ⟨1, 1, ⟨4, 4, fun _ _ => none⟩, ⟨0, 0, 4, 4⟩⟩

/-- Claim C1 counterexample: for a tile whose seed window holds no valid
disparity, the refiner does not fall back to the global `SearchRange`.  With
the global range set to `(100,100)-(200,200)`, the refiner instead derives
`(-1,-1)-(1,1)` from the zero box returned by `get_disparity_range`; the
global range is not consulted anywhere on this path. -/
theorem claim_C1_counterexample :
    validVals c1_seed.sub_disp.px (seed_bbox_of c1_seed) = [] ∧
    refine_no_hom c1_seed none = ⟨-1, -1, 1, 1⟩ ∧
    refine_no_hom c1_seed none ≠ ⟨100, 100, 200, 200⟩ := by
  have hsb : seed_bbox_of c1_seed = ⟨0, 0, 4, 4⟩ := by
    norm_num [seed_bbox_of, c1_seed, qtrunc, Box.expand, Box.crop, seed_extent]
  have hv : validVals c1_seed.sub_disp.px (seed_bbox_of c1_seed) = [] := by
    rw [hsb]; decide
  have hr : refine_no_hom c1_seed none = ⟨-1, -1, 1, 1⟩ := by
    show finalize_range (widen_by_spread none (seed_bbox_of c1_seed)
      (get_disparity_range c1_seed.sub_disp.px (seed_bbox_of c1_seed)))
      c1_seed.upx c1_seed.upy = _
    unfold widen_by_spread get_disparity_range
    rw [hv]
    show finalize_range (rangeOfList []) c1_seed.upx c1_seed.upy = _
    norm_num [rangeOfList, finalize_range, grow_bbox_to_int, Box.expand, c1_seed]
  refine ⟨hv, hr, ?_⟩
  rw [hr]
  decide

/-- The statement of the amended claim C1: when the mapped seed window holds
no valid disparity the refiner derives its output from the zero disparity
box (not from the global `SearchRange`), and the refiner never returns an
empty box, on both the homography-free and homography paths. -/
def ClaimC1Statement (s : SeedSetup) (spread : Option DispField) : Prop :=
  (validVals s.sub_disp.px (seed_bbox_of s) = [] →
    refine_no_hom s none = ⟨⌊-s.upx⌋, ⌊-s.upy⌋, ⌈s.upx⌉, ⌈s.upy⌉⟩) ∧
  ¬ (refine_no_hom s spread).isEmpty ∧
  ∀ h : Mat3, ¬ (refine_hom s h spread).isEmpty

/-- Claim C1 (amended): with positive upscale factors and a nonnegative
spread field (a spread is a per-cell uncertainty radius), the refiner never
produces an empty search-range box, and a seed window with no valid
disparity yields the box derived from the zero disparity range rather than
the global `SearchRange`. -/
theorem claim_C1_amended (s : SeedSetup) (spread : Option DispField)
    (hux : 0 < s.upx) (huy : 0 < s.upy)
    (hsp : ∀ sp ∈ spread, ∀ c ∈ coordsIn (seed_bbox_of s), ∀ e : ℤ × ℤ,
      sp.px c.1 c.2 = some e → 0 ≤ e.1 ∧ 0 ≤ e.2) :
    ClaimC1Statement s spread := by
  refine ⟨?_, ?_, ?_⟩
  · intro hv
    show finalize_range (widen_by_spread none (seed_bbox_of s)
      (get_disparity_range s.sub_disp.px (seed_bbox_of s))) s.upx s.upy = _
    unfold widen_by_spread get_disparity_range
    rw [hv]
    show finalize_range (rangeOfList []) s.upx s.upy = _
    unfold finalize_range rangeOfList grow_bbox_to_int Box.expand
    dsimp only
    norm_num
  · have hbase := rangeOfList_ordered
      ((validVals s.sub_disp.px (seed_bbox_of s)).map (fun v => ((v.1 : ℚ), (v.2 : ℚ))))
    have hord := widen_by_spread_ordered ⟨hbase.1, hbase.2⟩ hsp
    show ¬ (finalize_range (widen_by_spread spread (seed_bbox_of s)
      (get_disparity_range s.sub_disp.px (seed_bbox_of s))) s.upx s.upy).isEmpty
    exact finalize_range_nonempty hord.1 hord.2 hux huy
  · intro hm
    cases spread with
    | none =>
      have hr := rangeOfList_ordered
        ((validVals (transform_disparities hm s.sub_disp.px) (seed_bbox_of s)).map
          (fun v => ((v.1 : ℚ), (v.2 : ℚ))))
      show ¬ (finalize_range (get_disparity_range
        (transform_disparities hm s.sub_disp.px) (seed_bbox_of s)) s.upx s.upy).isEmpty
      exact finalize_range_nonempty hr.1 hr.2 hux huy
    | some sp =>
      have ha := rangeOfList_ordered
        ((validVals (transform_disparities hm (mask_add s.sub_disp.px sp.px))
          (seed_bbox_of s)).map (fun v => ((v.1 : ℚ), (v.2 : ℚ))))
      have hb := rangeOfList_ordered
        ((validVals (transform_disparities hm (mask_sub s.sub_disp.px sp.px))
          (seed_bbox_of s)).map (fun v => ((v.1 : ℚ), (v.2 : ℚ))))
      show ¬ (finalize_range (Box.union
        (get_disparity_range (transform_disparities hm (mask_add s.sub_disp.px sp.px))
          (seed_bbox_of s))
        (get_disparity_range (transform_disparities hm (mask_sub s.sub_disp.px sp.px))
          (seed_bbox_of s))) s.upx s.upy).isEmpty
      refine finalize_range_nonempty ?_ ?_ hux huy
      · exact le_trans (min_le_left _ _) (le_trans ha.1 (le_max_left _ _))
      · exact le_trans (min_le_left _ _) (le_trans ha.2 (le_max_left _ _))

/-- Witness for the amended claim C1: a 2x-scale setup with one valid seed
cell and an all-zero spread field. -/
theorem claim_C1_witness :
    (0 : ℚ) < 2 ∧
    ClaimC1Statement ⟨2, 2, ⟨4, 4, fun i j => if i = 1 ∧ j = 1 then some (3, -1) else none⟩,
      ⟨0, 0, 8, 8⟩⟩ (some (zero_spread 4 4)) := by
  refine ⟨by norm_num, claim_C1_amended _ _ (by norm_num) (by norm_num) ?_⟩
  intro sp hs c hc e he
  rcases Option.mem_def.mp hs with h
  cases h
  have : e = ((0 : ℤ), (0 : ℤ)) := by
    simpa [zero_spread] using he.symm
  rw [this]
  exact ⟨le_refl 0, le_refl 0⟩

/-! ### Claim C2: `SeededCorrelatorView::prerasterize` -/

/-- The value returned by `prerasterize` for one tile: the dimensions of the
produced image, the per-cell disparity (in absolute coordinates), and how
many times the helper (and hence the matching engine) was invoked. -/
structure TileOut where
  w : ℤ
  hgt : ℤ
  px : ℤ → ℤ → Option (ℤ × ℤ)
  engine_calls : ℕ

/-- `SeededCorrelatorView::prerasterize(bbox)`: crop the tile to
`m_trans_crop_win`; if the intersection is empty return a default
(all-invalid) image of the tile's dimensions without calling the helper;
otherwise run the helper (abstracted as `engine`, invoked once) and
afterwards overwrite every cell of the tile outside `m_trans_crop_win`
with the invalid pixel. -/
def prerasterize (trans_crop_win : Box ℤ) (engine : Box ℤ → ℤ → ℤ → Option (ℤ × ℤ))
    (bbox : Box ℤ) : TileOut :=
  if (bbox.crop trans_crop_win).isEmpty then
    ⟨bbox.width, bbox.height, fun _ _ => none, 0⟩
  else
    ⟨bbox.width, bbox.height,
     fun c r => if trans_crop_win.containsPt (c, r) then engine bbox c r else none,
     1⟩

/-- The statement of claim C2: cells outside the crop window are invalid; a
tile disjoint from the crop window is an all-invalid field of the tile's
exact dimensions with zero engine invocations; a tile meeting the crop
window invokes the engine once and keeps its in-window cells. -/
def ClaimC2Statement (trans_crop_win : Box ℤ)
    (engine : Box ℤ → ℤ → ℤ → Option (ℤ × ℤ)) (bbox : Box ℤ) : Prop :=
  (∀ c r : ℤ, ¬ trans_crop_win.containsPt (c, r) →
    (prerasterize trans_crop_win engine bbox).px c r = none) ∧
  ((bbox.crop trans_crop_win).isEmpty →
    (prerasterize trans_crop_win engine bbox).engine_calls = 0 ∧
    (prerasterize trans_crop_win engine bbox).w = bbox.width ∧
    (prerasterize trans_crop_win engine bbox).hgt = bbox.height ∧
    ∀ c r : ℤ, (prerasterize trans_crop_win engine bbox).px c r = none) ∧
  (¬ (bbox.crop trans_crop_win).isEmpty →
    (prerasterize trans_crop_win engine bbox).engine_calls = 1 ∧
    ∀ c r : ℤ, trans_crop_win.containsPt (c, r) →
      (prerasterize trans_crop_win engine bbox).px c r = engine bbox c r)

/-- Claim C2: for every crop window, matching engine and tile, the
dispatcher returns only invalid cells outside the region-of-interest crop
window, short-circuits disjoint tiles to an all-invalid field of the exact
tile dimensions with zero engine invocations, and forces out-of-window
cells invalid after the single engine call otherwise. -/
theorem claim_C2_dispatcher (trans_crop_win : Box ℤ)
    (engine : Box ℤ → ℤ → ℤ → Option (ℤ × ℤ)) (bbox : Box ℤ) :
    ClaimC2Statement trans_crop_win engine bbox := by
  unfold ClaimC2Statement prerasterize
  by_cases hemp : (bbox.crop trans_crop_win).isEmpty
  · simp [hemp]
  · simp only [if_neg hemp]
    refine ⟨fun c r hout => if_neg hout, fun hc => absurd hc hemp,
      fun _ => ⟨by trivial, fun c r hin => if_pos hin⟩⟩

/-- Witness for claim C2 at a concrete crop window, engine and two tiles
(one disjoint from the window, one overlapping it). -/
theorem claim_C2_witness :
    ClaimC2Statement ⟨2, 2, 6, 6⟩ (fun _ c r => some (c, r)) ⟨8, 8, 12, 12⟩ ∧
    ClaimC2Statement ⟨2, 2, 6, 6⟩ (fun _ c r => some (c, r)) ⟨0, 0, 4, 4⟩ ∧
    (Box.crop ⟨8, 8, 12, 12⟩ ⟨2, 2, 6, 6⟩).isEmpty ∧
    ¬ (Box.crop ⟨0, 0, 4, 4⟩ ⟨2, 2, 6, 6⟩).isEmpty :=
  ⟨claim_C2_dispatcher ⟨2, 2, 6, 6⟩ (fun _ c r => some (c, r)) ⟨8, 8, 12, 12⟩,
   claim_C2_dispatcher ⟨2, 2, 6, 6⟩ (fun _ c r => some (c, r)) ⟨0, 0, 4, 4⟩,
   by decide, by decide⟩

/-! ### Claim C6: reuse of the cached low-resolution disparity (`lowres_correlation`) -/

/-- Outcome of opening `*-D_sub.tif` as a disk image: success, an I/O error
(missing or unreadable file, `vw::IOErr`), or a corrupted file
(`vw::ArgumentErr`). -/
inductive ReadStatus where
  | ok : ReadStatus
  | ioErr : ReadStatus
  | argErr : ReadStatus
deriving DecidableEq, Repr

/-- The crop-window part of the stereo settings. -/
structure CropSettings where
  left_image_crop_win : Box ℤ
  right_image_crop_win : Box ℤ
deriving DecidableEq, Repr

/-- `crop_left_and_right`: both crop windows differ from the sentinel
`BBox2i(0,0,0,0)`. -/
def crop_left_and_right (c : CropSettings) : Prop :=
  c.left_image_crop_win ≠ zeroBox ∧ c.right_image_crop_win ≠ zeroBox

instance (c : CropSettings) : Decidable (crop_left_and_right c) := by
  unfold crop_left_and_right; infer_instance

/-- What `lowres_correlation` does with `D_sub` when `seed_mode > 0`.  Both
read failures are caught and only set `rebuild`; the caller never sees an
error. -/
inductive DSubAction where
  | recompute : DSubAction
  | useCached : DSubAction
deriving DecidableEq, Repr

/-- The `rebuild` flag of `lowres_correlation`: start from
`crop_left_and_right`, and force a rebuild when the cached `D_sub` fails to
open (missing/unreadable) or is corrupt. -/
def d_sub_rebuild (c : CropSettings) (st : ReadStatus) : Prop :=
  crop_left_and_right c ∨ st ≠ ReadStatus.ok

instance (c : CropSettings) (st : ReadStatus) : Decidable (d_sub_rebuild c st) := by
  unfold d_sub_rebuild; infer_instance

/-- `if (rebuild) produce_lowres_disparity(opt); else use the cached file`. -/
def lowres_d_sub_action (c : CropSettings) (st : ReadStatus) : DSubAction :=
  if d_sub_rebuild c st then DSubAction.recompute else DSubAction.useCached

/-- The statement of claim C6: the cached coarse disparity is reused exactly
when the file opens cleanly and not both crop windows are set; failures
recompute (total function, no error path), and both crop windows set force
recomputation even with a readable cache. -/
def ClaimC6Statement (c : CropSettings) (st : ReadStatus) : Prop :=
  (lowres_d_sub_action c st = DSubAction.useCached ↔
    (st = ReadStatus.ok ∧ ¬ crop_left_and_right c)) ∧
  (st ≠ ReadStatus.ok → lowres_d_sub_action c st = DSubAction.recompute) ∧
  (crop_left_and_right c → lowres_d_sub_action c st = DSubAction.recompute)

/-- Claim C6: for every crop configuration and cache state, `D_sub` is
reused iff the cache is readable and not both crop windows are set; a
missing or corrupt cache silently recomputes, and both crop windows set
force recomputation even when the cache is readable. -/
theorem claim_C6_d_sub_cache (c : CropSettings) (st : ReadStatus) :
    ClaimC6Statement c st := by
  unfold ClaimC6Statement lowres_d_sub_action d_sub_rebuild
  by_cases hcrop : crop_left_and_right c
  · by_cases hst : st = ReadStatus.ok <;> simp [hcrop, hst]
  · by_cases hst : st = ReadStatus.ok <;> simp [hcrop, hst]

/-- Witness for claim C6: with both crop windows set and a readable cache,
the action is recomputation; with no crop and a readable cache, reuse. -/
theorem claim_C6_witness :
    ClaimC6Statement ⟨⟨0, 0, 5, 5⟩, ⟨1, 1, 6, 6⟩⟩ ReadStatus.ok ∧
    ClaimC6Statement ⟨zeroBox, zeroBox⟩ ReadStatus.ok ∧
    lowres_d_sub_action ⟨⟨0, 0, 5, 5⟩, ⟨1, 1, 6, 6⟩⟩ ReadStatus.ok = DSubAction.recompute ∧
    lowres_d_sub_action ⟨zeroBox, zeroBox⟩ ReadStatus.ok = DSubAction.useCached ∧
    lowres_d_sub_action ⟨zeroBox, zeroBox⟩ ReadStatus.argErr = DSubAction.recompute :=
  ⟨claim_C6_d_sub_cache ⟨⟨0, 0, 5, 5⟩, ⟨1, 1, 6, 6⟩⟩ ReadStatus.ok,
   claim_C6_d_sub_cache ⟨zeroBox, zeroBox⟩ ReadStatus.ok,
   by decide, by decide, by decide⟩

/-! ### Claim C7: outlier-filter selection in `produce_lowres_disparity` -/

/-- Which outlier-removal routine postprocesses the low-resolution
disparity. -/
inductive FilterVariant where
  | threshold : FilterVariant
  | quantile : FilterVariant
deriving DecidableEq, Repr

/-- The settings consulted by the seed-mode-1 branch of
`produce_lowres_disparity`. -/
structure LowresSettings where
  rm_quantile_multiple : ℚ
  corr_blob_filter_area : ℚ
  raster_tile_w : ℤ
  raster_tile_h : ℤ
  left_sub_cols : ℤ
  left_sub_rows : ℤ

/-- The filter variant and the engine arguments that depend on it. -/
structure LowresCall where
  variant : FilterVariant
  blob_filter_area : ℚ
  collar_size : ℤ
deriving DecidableEq, Repr

/-- The seed-mode-1 dispatch of `produce_lowres_disparity`:
`rm_quantile_multiple <= 0` runs `rm_outliers_using_thresh` on a pyramid
correlation with blob area `corr_blob_filter_area * mean_scale` and a collar
(0 if one tile covers the whole image, 512 otherwise); a positive value runs
`rm_outliers_using_quantiles` on a correlation invoked with collar 0 and
blob-filter area 0. -/
def produce_lowres_call (s : LowresSettings) (mean_scale : ℚ) : LowresCall :=
  if s.rm_quantile_multiple ≤ 0 then
    ⟨FilterVariant.threshold, s.corr_blob_filter_area * mean_scale,
     if s.raster_tile_w > s.left_sub_cols ∧ s.raster_tile_h > s.left_sub_rows
     then 0 else 512⟩
  else
    ⟨FilterVariant.quantile, 0, 0⟩

/-- The statement of claim C7: the variant is selected by the sign of
`rm_quantile_multiple` (exactly one variant per invocation), and the
quantile path passes a blob-filter area of zero to the matching engine. -/
def ClaimC7Statement (s : LowresSettings) (mean_scale : ℚ) : Prop :=
  ((produce_lowres_call s mean_scale).variant = FilterVariant.threshold ↔
    s.rm_quantile_multiple ≤ 0) ∧
  ((produce_lowres_call s mean_scale).variant = FilterVariant.quantile ↔
    0 < s.rm_quantile_multiple) ∧
  (0 < s.rm_quantile_multiple →
    (produce_lowres_call s mean_scale).blob_filter_area = 0)

/-- Claim C7: in every low-resolution correlation invocation exactly one
outlier-filter variant runs, chosen by the sign of the quantile-multiple
setting, and the quantile path disables blob-area filtering in the engine
call. -/
theorem claim_C7_filter_selection (s : LowresSettings) (mean_scale : ℚ) :
    ClaimC7Statement s mean_scale := by
  unfold ClaimC7Statement produce_lowres_call
  by_cases hq : s.rm_quantile_multiple ≤ 0
  · simp [hq, not_lt.mpr hq]
  · simp [hq, lt_of_not_le hq]

/-- Witness for claim C7 at a positive and a nonpositive quantile
multiple. -/
theorem claim_C7_witness :
    ClaimC7Statement ⟨3, 7, 1024, 1024, 600, 400⟩ 2 ∧
    ClaimC7Statement ⟨0, 7, 1024, 1024, 600, 400⟩ 2 ∧
    (produce_lowres_call ⟨3, 7, 1024, 1024, 600, 400⟩ 2).variant = FilterVariant.quantile ∧
    (produce_lowres_call ⟨3, 7, 1024, 1024, 600, 400⟩ 2).blob_filter_area = 0 ∧
    (produce_lowres_call ⟨0, 7, 1024, 1024, 600, 400⟩ 2).variant = FilterVariant.threshold :=
  ⟨claim_C7_filter_selection ⟨3, 7, 1024, 1024, 600, 400⟩ 2,
   claim_C7_filter_selection ⟨0, 7, 1024, 1024, 600, 400⟩ 2,
   by norm_num [produce_lowres_call], by norm_num [produce_lowres_call],
   by norm_num [produce_lowres_call]⟩

/-! ### Claim C8: global search range from matched interest points -/

/-- One recorded interest-point match: `(ip1[i].x, ip1[i].y)` in the left
image and `(ip2[i].x, ip2[i].y)` in the right image. -/
structure IpPair where
  x1 : ℚ
  y1 : ℚ
  x2 : ℚ
  y2 : ℚ
deriving DecidableEq, Repr

/-- The body of the IP loop in `lowres_correlation`: apply the alignment
matrices, skip the pair if either homogeneous third coordinate is exactly
zero (before any division), normalize, skip the pair if either point falls
outside its image size, else contribute the disparity `(r - l)`. -/
def ip_disparity (aL aR : Mat3) (lw lh rw rh : ℚ) (p : IpPair) : Option (ℚ × ℚ) :=
  let lz := hom_den aL p.x1 p.y1
  let rz := hom_den aR p.x2 p.y2
  if lz = 0 ∨ rz = 0 then none
  else
    let lx := hom_num_x aL p.x1 p.y1 / lz
    let ly := hom_num_y aL p.x1 p.y1 / lz
    let rx := hom_num_x aR p.x2 p.y2 / rz
    let ry := hom_num_y aR p.x2 p.y2 / rz
    if lx > lw ∨ ly > lh ∨ rx > rw ∨ ry > rh ∨
       lx < 0 ∨ ly < 0 ∨ rx < 0 ∨ ry < 0 then none
    else some (rx - lx, ry - ly)

/-- The bounding box grown over a list of points, as an `Option` to keep the
default-constructed (never grown) `BBox2` explicit. -/
def rangeOpt (l : List (ℚ × ℚ)) : Option (Box ℚ) :=
  match l with
  | [] => none
  | _ => some (rangeOfList l)

/-- The search range computed from the recorded interest points:
`stereo_settings().search_range = grow_bbox_to_int(search_range)` where
`search_range` grew over the disparities of the surviving pairs. -/
def approximate_search_range_ip (aL aR : Mat3) (lw lh rw rh : ℚ)
    (ips : List IpPair) : Option (Box ℤ) :=
  (rangeOpt (ips.filterMap (ip_disparity aL aR lw lh rw rh))).map grow_bbox_to_int

/-- The statement of claim C8: a pair whose homogeneous third coordinate is
zero is dropped without affecting the result (no failure), a pair mapping
outside its image bounds is likewise dropped, and for a nonempty set of
survivors the result is the bounding box of the surviving `(right - left)`
differences grown outward to integers (containing every survivor). -/
def ClaimC8Statement (aL aR : Mat3) (lw lh rw rh : ℚ) : Prop :=
  (∀ (p : IpPair) (ips : List IpPair),
    hom_den aL p.x1 p.y1 = 0 ∨ hom_den aR p.x2 p.y2 = 0 →
    approximate_search_range_ip aL aR lw lh rw rh (p :: ips) =
      approximate_search_range_ip aL aR lw lh rw rh ips) ∧
  (∀ (p : IpPair) (ips : List IpPair),
    ip_disparity aL aR lw lh rw rh p = none →
    approximate_search_range_ip aL aR lw lh rw rh (p :: ips) =
      approximate_search_range_ip aL aR lw lh rw rh ips) ∧
  (∀ ips : List IpPair,
    ∀ v ∈ (ips.filterMap (ip_disparity aL aR lw lh rw rh)),
    approximate_search_range_ip aL aR lw lh rw rh ips =
      some (grow_bbox_to_int
        (rangeOfList (ips.filterMap (ip_disparity aL aR lw lh rw rh)))) ∧
    ((grow_bbox_to_int
        (rangeOfList (ips.filterMap (ip_disparity aL aR lw lh rw rh)))).x0 : ℚ) ≤ v.1 ∧
    v.1 ≤ ((grow_bbox_to_int
        (rangeOfList (ips.filterMap (ip_disparity aL aR lw lh rw rh)))).x1 : ℚ) ∧
    ((grow_bbox_to_int
        (rangeOfList (ips.filterMap (ip_disparity aL aR lw lh rw rh)))).y0 : ℚ) ≤ v.2 ∧
    v.2 ≤ ((grow_bbox_to_int
        (rangeOfList (ips.filterMap (ip_disparity aL aR lw lh rw rh)))).y1 : ℚ))

/-- Claim C8: the interest-point search-range estimation guards the
homogeneous division (zero third coordinate drops the pair, with no error),
drops out-of-bounds pairs, and returns the outward-rounded bounding box of
the surviving disparities. -/
theorem claim_C8_ip_search_range (aL aR : Mat3) (lw lh rw rh : ℚ) :
    ClaimC8Statement aL aR lw lh rw rh := by
  have hdrop : ∀ (p : IpPair) (ips : List IpPair),
      ip_disparity aL aR lw lh rw rh p = none →
      approximate_search_range_ip aL aR lw lh rw rh (p :: ips) =
        approximate_search_range_ip aL aR lw lh rw rh ips := by
    intro p ips hp
    unfold approximate_search_range_ip
    rw [List.filterMap_cons_none hp]
  refine ⟨?_, hdrop, ?_⟩
  · intro p ips hz
    refine hdrop p ips ?_
    unfold ip_disparity
    simp only [if_pos hz]
  · intro ips v hv
    have hne : ips.filterMap (ip_disparity aL aR lw lh rw rh) ≠ [] := by
      intro h
      rw [h] at hv
      cases hv
    have hb := rangeOfList_mem_bounds hv
    have hg := grow_bbox_to_int_contains
      (rangeOfList (ips.filterMap (ip_disparity aL aR lw lh rw rh)))
    refine ⟨?_, le_trans hg.1 hb.1, le_trans hb.2.1 hg.2.2.1,
      le_trans hg.2.1 hb.2.2.1, le_trans hb.2.2.2 hg.2.2.2⟩
    unfold approximate_search_range_ip rangeOpt
    cases hL : ips.filterMap (ip_disparity aL aR lw lh rw rh) with
    | nil => exact absurd hL hne
    | cons w ws => simp [hL]

/-- Witness for claim C8 with identity alignment matrices and 10x10
images. -/
theorem claim_C8_witness :
    ClaimC8Statement ⟨1, 0, 0, 0, 1, 0, 0, 0, 1⟩ ⟨1, 0, 0, 0, 1, 0, 0, 0, 1⟩ 10 10 10 10 ∧
    ip_disparity ⟨1, 0, 0, 0, 1, 0, 0, 0, 1⟩ ⟨1, 0, 0, 0, 1, 0, 0, 0, 1⟩ 10 10 10 10
      ⟨2, 2, 5, 3⟩ = some (3, 1) :=
  ⟨claim_C8_ip_search_range ⟨1, 0, 0, 0, 1, 0, 0, 0, 1⟩ ⟨1, 0, 0, 0, 1, 0, 0, 0, 1⟩
    10 10 10 10,
   by norm_num [ip_disparity, hom_den, hom_num_x, hom_num_y]⟩

/-! ### Claim C9: `StereoSession::ip_matching` failure handling -/

/-- The environment of one `ip_matching` call: the crop settings, whether
the match file already exists on disk, and whether the matching routine
(either `ip_matching_w_alignment` or `homography_ip_matching`) reports
inliers. -/
structure IpMatchingEnv where
  crops : CropSettings
  match_file_exists : Bool
  inlier_result : Bool
deriving DecidableEq, Repr

/-- The observable outcome of `ip_matching`: the returned value or the
thrown error, whether the match-file artifact remains on disk afterwards,
and how many times a matching routine ran. -/
structure IpMatchingOutcome where
  result : Except String Bool
  match_file_on_disk : Bool
  match_calls : ℕ

/-- `StereoSession::ip_matching`: reuse a cached match file unless both
images are cropped; otherwise run the matcher once (which writes the match
file); if it finds no inliers, remove the match file and throw an
`IOErr`. -/
def StereoSession_ip_matching (e : IpMatchingEnv) : IpMatchingOutcome :=
  if ¬ crop_left_and_right e.crops ∧ e.match_file_exists then
    ⟨Except.ok true, true, 0⟩
  else if e.inlier_result then
    ⟨Except.ok true, true, 1⟩
  else
    ⟨Except.error "Unable to match left and right images.", false, 1⟩

/-- The statement of claim C9: when the matcher runs and finds no inliers,
the call throws, the match-file artifact is deleted, and the matcher is not
retried (exactly one invocation). -/
def ClaimC9Statement (e : IpMatchingEnv) : Prop :=
  ¬ (¬ crop_left_and_right e.crops ∧ e.match_file_exists = true) →
  e.inlier_result = false →
  (StereoSession_ip_matching e).result =
    Except.error "Unable to match left and right images." ∧
  (StereoSession_ip_matching e).match_file_on_disk = false ∧
  (StereoSession_ip_matching e).match_calls = 1

/-- Claim C9: whenever interest-point matching finds no inliers, the
attempted match-file artifact is deleted from disk and the operation fails
by raising an error, without a retry. -/
theorem claim_C9_no_inliers (e : IpMatchingEnv) : ClaimC9Statement e := by
  unfold ClaimC9Statement StereoSession_ip_matching
  intro hcache hinl
  rw [if_neg (by simpa using hcache), hinl]
  exact ⟨rfl, rfl, rfl⟩

/-- Witness for claim C9: no cached match file, matcher finds no inliers. -/
theorem claim_C9_witness :
    ClaimC9Statement ⟨⟨zeroBox, zeroBox⟩, false, false⟩ ∧
    StereoSession_ip_matching ⟨⟨zeroBox, zeroBox⟩, false, false⟩ =
      ⟨Except.error "Unable to match left and right images.", false, 1⟩ :=
  ⟨claim_C9_no_inliers ⟨⟨zeroBox, zeroBox⟩, false, false⟩,
   by simp [StereoSession_ip_matching]⟩

/-! ### Claim C10: crop-driven behavior and the zero-box sentinel -/

/-- The inputs of `StereoSession::shared_preprocessing_hook` that decide
cache reuse: the crop settings, whether `*-L.tif`/`*-R.tif` exist, and
whether they open cleanly. -/
structure PreprocEnv where
  crops : CropSettings
  outputs_exist : Bool
  outputs_readable : Bool
deriving DecidableEq, Repr

/-- The observable outcome of `shared_preprocessing_hook`: whether the
cached normalized images were reused, and whether cropped image files were
written. -/
structure PreprocOut where
  used_cache : Bool
  wrote_cropped : Bool
deriving DecidableEq, Repr

/-- `StereoSession::shared_preprocessing_hook`: when both outputs exist,
both crop windows are not set, and the files open cleanly, return early
reusing the cached normalized images; otherwise continue, writing
`*-L-cropped.tif`/`*-R-cropped.tif` exactly when both crop windows are
set. -/
def shared_preprocessing_hook (e : PreprocEnv) : PreprocOut :=
  if e.outputs_exist ∧ ¬ crop_left_and_right e.crops ∧ e.outputs_readable then
    ⟨true, false⟩
  else
    ⟨false, decide (crop_left_and_right e.crops)⟩

/-- Which of the two input images a camera query refers to. -/
inductive WhichImage where
  | left : WhichImage
  | right : WhichImage
deriving DecidableEq, Repr

/-- `asp::camera_pixel_offset`: zero for map-projected input (a DEM is
given); otherwise the min corner of the matching crop window when both crop
windows are set, and zero when not. -/
def camera_pixel_offset (input_dem : Bool) (c : CropSettings) (w : WhichImage) :
    ℤ × ℤ :=
  if input_dem then (0, 0)
  else if crop_left_and_right c then
    match w with
    | WhichImage.left => (c.left_image_crop_win.x0, c.left_image_crop_win.y0)
    | WhichImage.right => (c.right_image_crop_win.x0, c.right_image_crop_win.y0)
  else (0, 0)

/-- A crop configuration with at most one non-empty window: the left window
`BBox2i(1,1,0,0)` is empty (zero size) yet differs from the zero-box
sentinel, the right window is genuinely non-empty. -/
def c10_crops : CropSettings := ⟨⟨1, 1, 1, 1⟩, ⟨0, 0, 100, 100⟩⟩

/-- Claim C10 counterexample: with the left crop window an *empty* box that
differs from the sentinel `BBox2i(0,0,0,0)` and only the right window
non-empty, the code nevertheless takes every crop-driven path: nonzero
camera pixel offset, no reuse of cached preprocessed images, cropped files
written, matcher re-run despite a cached match file, and `D_sub`
recomputed despite a readable cache. -/
theorem claim_C10_counterexample :
    c10_crops.left_image_crop_win.isEmpty ∧
    ¬ c10_crops.right_image_crop_win.isEmpty ∧
    camera_pixel_offset false c10_crops WhichImage.left = (1, 1) ∧
    (shared_preprocessing_hook ⟨c10_crops, true, true⟩).used_cache = false ∧
    (shared_preprocessing_hook ⟨c10_crops, true, true⟩).wrote_cropped = true ∧
    (StereoSession_ip_matching ⟨c10_crops, true, true⟩).match_calls = 1 ∧
    lowres_d_sub_action c10_crops ReadStatus.ok = DSubAction.recompute := by
  decide

/-- The statement of the amended claim C10: whenever at least one crop
window equals the zero-box sentinel the system behaves exactly as with no
crop windows at all: the matcher and preprocessing caches behave
identically, no cropped images are written, a readable `D_sub` cache is
reused, and the camera pixel offsets are zero. -/
def ClaimC10Statement (c : CropSettings) : Prop :=
  (∀ mf inl : Bool, StereoSession_ip_matching ⟨c, mf, inl⟩ =
      StereoSession_ip_matching ⟨⟨zeroBox, zeroBox⟩, mf, inl⟩) ∧
  (∀ inl : Bool, (StereoSession_ip_matching ⟨c, true, inl⟩).match_calls = 0) ∧
  (∀ oe orr : Bool, shared_preprocessing_hook ⟨c, oe, orr⟩ =
      shared_preprocessing_hook ⟨⟨zeroBox, zeroBox⟩, oe, orr⟩) ∧
  (∀ oe orr : Bool, (shared_preprocessing_hook ⟨c, oe, orr⟩).wrote_cropped = false) ∧
  ((shared_preprocessing_hook ⟨c, true, true⟩).used_cache = true) ∧
  (∀ st : ReadStatus, lowres_d_sub_action c st =
      lowres_d_sub_action ⟨zeroBox, zeroBox⟩ st) ∧
  (lowres_d_sub_action c ReadStatus.ok = DSubAction.useCached) ∧
  (∀ (dem : Bool) (w : WhichImage), camera_pixel_offset dem c w = (0, 0))

/-- Claim C10 (amended): for every configuration in which at least one crop
window equals the sentinel `BBox2i(0,0,0,0)` ("unset"), the system behaves
exactly as if no crop window were set: caches are reused, no cropped images
are written, the coarse-disparity cache is not invalidated, and the camera
pixel offsets are zero. -/
theorem claim_C10_amended (c : CropSettings)
    (h : c.left_image_crop_win = zeroBox ∨ c.right_image_crop_win = zeroBox) :
    ClaimC10Statement c := by
  have hnc : ¬ crop_left_and_right c := by
    rcases h with h | h
    · exact fun hcl => hcl.1 h
    · exact fun hcl => hcl.2 h
  have hnz : ¬ crop_left_and_right ⟨zeroBox, zeroBox⟩ := by decide
  refine ⟨?_, ?_, ?_, ?_, ?_, ?_, ?_, ?_⟩
  · intro mf inl
    simp [StereoSession_ip_matching, hnc, hnz]
  · intro inl
    simp [StereoSession_ip_matching, hnc]
  · intro oe orr
    simp [shared_preprocessing_hook, hnc, hnz]
  · intro oe orr
    unfold shared_preprocessing_hook
    split
    · rfl
    · simpa using hnc
  · simp [shared_preprocessing_hook, hnc]
  · intro st
    simp [lowres_d_sub_action, d_sub_rebuild, hnc, hnz]
  · simp [lowres_d_sub_action, d_sub_rebuild, hnc]
  · intro dem w
    cases dem with
    | false => simp [camera_pixel_offset, hnc]
    | true => simp [camera_pixel_offset]

/-- Witness for the amended claim C10: only the right crop window is set. -/
theorem claim_C10_witness :
    (⟨zeroBox, ⟨0, 0, 50, 50⟩⟩ : CropSettings).left_image_crop_win = zeroBox ∧
    ClaimC10Statement ⟨zeroBox, ⟨0, 0, 50, 50⟩⟩ :=
  ⟨rfl, claim_C10_amended ⟨zeroBox, ⟨0, 0, 50, 50⟩⟩ (Or.inl rfl)⟩

/-! ### Claim C5: monotonic widening by the spread field -/

theorem mediant_between {n0 n1 d0 d1 : ℚ} (h0 : 0 < d0) (h1 : 0 < d1) :
    min (n0 / d0) (n1 / d1) ≤ (n0 + n1) / (d0 + d1) ∧
    (n0 + n1) / (d0 + d1) ≤ max (n0 / d0) (n1 / d1) := by
  have hs : (0 : ℚ) < d0 + d1 := by linarith
  rcases le_total (n0 * d1) (n1 * d0) with h | h
  · constructor
    · refine le_trans (min_le_left _ _) ?_
      rw [div_le_div_iff₀ h0 hs]
      nlinarith
    · refine le_trans ?_ (le_max_right _ _)
      rw [div_le_div_iff₀ hs h1]
      nlinarith
  · constructor
    · refine le_trans (min_le_right _ _) ?_
      rw [div_le_div_iff₀ h1 hs]
      nlinarith
    · refine le_trans ?_ (le_max_left _ _)
      rw [div_le_div_iff₀ hs h0]
      nlinarith

theorem round_mono2 {a b : ℚ} (h : a ≤ b) : round a ≤ round b := by
  rw [round_eq, round_eq]
  exact Int.floor_le_floor (by linarith)

theorem round_between {a b c : ℚ} (h1 : min a b ≤ c) (h2 : c ≤ max a b) :
    min (round a) (round b) ≤ round c ∧ round c ≤ max (round a) (round b) := by
  constructor
  · rcases le_total a b with hab | hab
    · have hac : a ≤ c := by rwa [min_eq_left hab] at h1
      exact le_trans (min_le_left _ _) (round_mono2 hac)
    · have hbc : b ≤ c := by rwa [min_eq_right hab] at h1
      exact le_trans (min_le_right _ _) (round_mono2 hbc)
  · rcases le_total a b with hab | hab
    · have hcb : c ≤ b := by rwa [max_eq_right hab] at h2
      exact le_trans (round_mono2 hcb) (le_max_right _ _)
    · have hca : c ≤ a := by rwa [max_eq_left hab] at h2
      exact le_trans (round_mono2 hca) (le_max_left _ _)


theorem mediant_div_between (nl nu : ℚ) {dl du : ℚ} (hl : 0 < dl) (hu : 0 < du) :
    min (nl / dl) (nu / du) ≤ ((nl + nu) / 2) / ((dl + du) / 2) ∧
    ((nl + nu) / 2) / ((dl + du) / 2) ≤ max (nl / dl) (nu / du) := by
  have heq : ((nl + nu) / 2) / ((dl + du) / 2) = (nl + nu) / (dl + du) :=
    div_div_div_cancel_right₀ (by norm_num) _ _
  rw [heq]
  exact mediant_between hl hu

theorem tdisp_between (h : Mat3) (i j : ℤ) (d e : ℤ × ℤ)
    (hlo : 0 < hom_den h ((i : ℚ) + ((d.1 - e.1 : ℤ) : ℚ)) ((j : ℚ) + ((d.2 - e.2 : ℤ) : ℚ)))
    (hup : 0 < hom_den h ((i : ℚ) + ((d.1 + e.1 : ℤ) : ℚ)) ((j : ℚ) + ((d.2 + e.2 : ℤ) : ℚ))) :
    min (tdisp h i j (d.1 - e.1, d.2 - e.2)).1 (tdisp h i j (d.1 + e.1, d.2 + e.2)).1 ≤
      (tdisp h i j d).1 ∧
    (tdisp h i j d).1 ≤
      max (tdisp h i j (d.1 - e.1, d.2 - e.2)).1 (tdisp h i j (d.1 + e.1, d.2 + e.2)).1 ∧
    min (tdisp h i j (d.1 - e.1, d.2 - e.2)).2 (tdisp h i j (d.1 + e.1, d.2 + e.2)).2 ≤
      (tdisp h i j d).2 ∧
    (tdisp h i j d).2 ≤
      max (tdisp h i j (d.1 - e.1, d.2 - e.2)).2 (tdisp h i j (d.1 + e.1, d.2 + e.2)).2 := by
  have hDx : hom_den h ((i : ℚ) + (d.1 : ℚ)) ((j : ℚ) + (d.2 : ℚ)) =
      (hom_den h ((i : ℚ) + ((d.1 - e.1 : ℤ) : ℚ)) ((j : ℚ) + ((d.2 - e.2 : ℤ) : ℚ)) +
       hom_den h ((i : ℚ) + ((d.1 + e.1 : ℤ) : ℚ)) ((j : ℚ) + ((d.2 + e.2 : ℤ) : ℚ))) / 2 := by
    unfold hom_den
    push_cast
    ring
  have hNx : hom_num_x h ((i : ℚ) + (d.1 : ℚ)) ((j : ℚ) + (d.2 : ℚ)) =
      (hom_num_x h ((i : ℚ) + ((d.1 - e.1 : ℤ) : ℚ)) ((j : ℚ) + ((d.2 - e.2 : ℤ) : ℚ)) +
       hom_num_x h ((i : ℚ) + ((d.1 + e.1 : ℤ) : ℚ)) ((j : ℚ) + ((d.2 + e.2 : ℤ) : ℚ))) / 2 := by
    unfold hom_num_x
    push_cast
    ring
  have hNy : hom_num_y h ((i : ℚ) + (d.1 : ℚ)) ((j : ℚ) + (d.2 : ℚ)) =
      (hom_num_y h ((i : ℚ) + ((d.1 - e.1 : ℤ) : ℚ)) ((j : ℚ) + ((d.2 - e.2 : ℤ) : ℚ)) +
       hom_num_y h ((i : ℚ) + ((d.1 + e.1 : ℤ) : ℚ)) ((j : ℚ) + ((d.2 + e.2 : ℤ) : ℚ))) / 2 := by
    unfold hom_num_y
    push_cast
    ring
  have hbx := mediant_div_between
    (hom_num_x h ((i : ℚ) + ((d.1 - e.1 : ℤ) : ℚ)) ((j : ℚ) + ((d.2 - e.2 : ℤ) : ℚ)))
    (hom_num_x h ((i : ℚ) + ((d.1 + e.1 : ℤ) : ℚ)) ((j : ℚ) + ((d.2 + e.2 : ℤ) : ℚ)))
    hlo hup
  have hby := mediant_div_between
    (hom_num_y h ((i : ℚ) + ((d.1 - e.1 : ℤ) : ℚ)) ((j : ℚ) + ((d.2 - e.2 : ℤ) : ℚ)))
    (hom_num_y h ((i : ℚ) + ((d.1 + e.1 : ℤ) : ℚ)) ((j : ℚ) + ((d.2 + e.2 : ℤ) : ℚ)))
    hlo hup
  rw [← hNx, ← hDx] at hbx
  rw [← hNy, ← hDx] at hby
  have hrx := round_between hbx.1 hbx.2
  have hry := round_between hby.1 hby.2
  unfold tdisp
  dsimp only
  refine ⟨?_, ?_, ?_, ?_⟩
  · rw [min_sub_sub_right]
    exact sub_le_sub_right hrx.1 i
  · rw [max_sub_sub_right]
    exact sub_le_sub_right hrx.2 i
  · rw [min_sub_sub_right]
    exact sub_le_sub_right hry.1 j
  · rw [max_sub_sub_right]
    exact sub_le_sub_right hry.2 j

theorem mem_validVals_of {f : ℤ → ℤ → Option (ℤ × ℤ)} {b : Box ℤ} {v : ℤ × ℤ}
    {c : ℤ × ℤ} (hc : c ∈ coordsIn b) (hfc : f c.1 c.2 = some v) :
    v ∈ validVals f b :=
  List.mem_filterMap.mpr ⟨c, hc, hfc⟩

theorem rangeOfList_all_zero {l : List (ℚ × ℚ)}
    (h : ∀ v ∈ l, v = ((0 : ℚ), (0 : ℚ))) : rangeOfList l = ⟨0, 0, 0, 0⟩ := by
  cases l with
  | nil => rfl
  | cons v vs =>
    have hv : v = ((0 : ℚ), (0 : ℚ)) := h v (List.mem_cons_self _ _)
    subst hv
    have hz : ∀ w ∈ vs, w = ((0 : ℚ), (0 : ℚ)) :=
      fun w hw => h w (List.mem_cons_of_mem _ hw)
    have hfst : ∀ q ∈ vs.map Prod.fst, q = (0 : ℚ) := by
      intro q hq
      rcases List.mem_map.mp hq with ⟨u, hu, rfl⟩
      rw [hz u hu]
    have hsnd : ∀ q ∈ vs.map Prod.snd, q = (0 : ℚ) := by
      intro q hq
      rcases List.mem_map.mp hq with ⟨u, hu, rfl⟩
      rw [hz u hu]
    have e1 : (vs.map Prod.fst).foldl min (0 : ℚ) = 0 :=
      le_antisymm (foldl_min_le_init _ _)
        (le_foldl_min _ (le_refl 0) (fun q hq => le_of_eq (hfst q hq).symm))
    have e2 : (vs.map Prod.snd).foldl min (0 : ℚ) = 0 :=
      le_antisymm (foldl_min_le_init _ _)
        (le_foldl_min _ (le_refl 0) (fun q hq => le_of_eq (hsnd q hq).symm))
    have e3 : (vs.map Prod.fst).foldl max (0 : ℚ) = 0 :=
      le_antisymm (foldl_max_le _ (le_refl 0) (fun q hq => le_of_eq (hfst q hq)))
        (init_le_foldl_max _ _)
    have e4 : (vs.map Prod.snd).foldl max (0 : ℚ) = 0 :=
      le_antisymm (foldl_max_le _ (le_refl 0) (fun q hq => le_of_eq (hsnd q hq)))
        (init_le_foldl_max _ _)
    show Box.mk ((vs.map Prod.fst).foldl min (0 : ℚ)) ((vs.map Prod.snd).foldl min (0 : ℚ))
      ((vs.map Prod.fst).foldl max (0 : ℚ)) ((vs.map Prod.snd).foldl max (0 : ℚ)) =
      ⟨0, 0, 0, 0⟩
    rw [e1, e2, e3, e4]

theorem get_disparity_range_zero_spread (cz rz : ℤ) (b : Box ℤ) :
    get_disparity_range (zero_spread cz rz).px b = ⟨0, 0, 0, 0⟩ := by
  unfold get_disparity_range
  refine rangeOfList_all_zero ?_
  intro v hv
  rcases List.mem_map.mp hv with ⟨u, hu, rfl⟩
  rcases mem_validVals hu with ⟨c, hc, hfc⟩
  have hu0 : u = ((0 : ℤ), (0 : ℤ)) := by
    simpa [zero_spread] using hfc.symm
  simp [hu0]

theorem widen_by_zero_spread (cz rz : ℤ) (sb : Box ℤ) (r : Box ℚ) :
    widen_by_spread (some (zero_spread cz rz)) sb r = r := by
  rw [show widen_by_spread (some (zero_spread cz rz)) sb r =
    ⟨r.x0 - (get_disparity_range (zero_spread cz rz).px sb).x1,
     r.y0 - (get_disparity_range (zero_spread cz rz).px sb).y1,
     r.x1 + (get_disparity_range (zero_spread cz rz).px sb).x1,
     r.y1 + (get_disparity_range (zero_spread cz rz).px sb).y1⟩ from rfl]
  rw [get_disparity_range_zero_spread]
  cases r
  simp

theorem Box.union_self (b : Box ℚ) : b.union b = b := by
  cases b
  simp [Box.union]

theorem transform_mask_add_zero (h : Mat3) (f : ℤ → ℤ → Option (ℤ × ℤ)) (cz rz : ℤ) :
    transform_disparities h (mask_add f (zero_spread cz rz).px) =
      transform_disparities h f := by
  funext i j
  cases hf : f i j with
  | none => simp [transform_disparities, mask_add, zero_spread, hf]
  | some d => simp [transform_disparities, mask_add, zero_spread, hf]

theorem transform_mask_sub_zero (h : Mat3) (f : ℤ → ℤ → Option (ℤ × ℤ)) (cz rz : ℤ) :
    transform_disparities h (mask_sub f (zero_spread cz rz).px) =
      transform_disparities h f := by
  funext i j
  cases hf : f i j with
  | none => simp [transform_disparities, mask_sub, zero_spread, hf]
  | some d => simp [transform_disparities, mask_sub, zero_spread, hf]

theorem range_union_bound {F FU FL : ℤ → ℤ → Option (ℤ × ℤ)} {w : Box ℤ}
    (hpt : ∀ cd ∈ coordsIn w, ∀ vm : ℤ × ℤ, F cd.1 cd.2 = some vm →
      ∃ vu vl : ℤ × ℤ, FU cd.1 cd.2 = some vu ∧ FL cd.1 cd.2 = some vl ∧
        min vl.1 vu.1 ≤ vm.1 ∧ vm.1 ≤ max vl.1 vu.1 ∧
        min vl.2 vu.2 ≤ vm.2 ∧ vm.2 ≤ max vl.2 vu.2)
    (hnone : ∀ cd ∈ coordsIn w, F cd.1 cd.2 = none →
      FU cd.1 cd.2 = none ∧ FL cd.1 cd.2 = none) :
    (get_disparity_range F w).subset
      (Box.union (get_disparity_range FU w) (get_disparity_range FL w)) := by
  unfold get_disparity_range
  by_cases hmid : validVals F w = []
  · have hupE : validVals FU w = [] := by
      refine List.filterMap_eq_nil_iff.mpr ?_
      intro cd hcd
      exact (hnone cd hcd (List.filterMap_eq_nil_iff.mp hmid cd hcd)).1
    have hloE : validVals FL w = [] := by
      refine List.filterMap_eq_nil_iff.mpr ?_
      intro cd hcd
      exact (hnone cd hcd (List.filterMap_eq_nil_iff.mp hmid cd hcd)).2
    rw [hmid, hupE, hloE]
    norm_num [rangeOfList, Box.union, Box.subset]
  · have hMne : (validVals F w).map (fun u => ((u.1 : ℚ), (u.2 : ℚ))) ≠ [] := by
      intro hc
      exact hmid (by simpa using hc)
    have hall : ∀ v ∈ (validVals F w).map (fun u => ((u.1 : ℚ), (u.2 : ℚ))),
        ((min (rangeOfList ((validVals FU w).map (fun u => ((u.1 : ℚ), (u.2 : ℚ))))).x0
              (rangeOfList ((validVals FL w).map (fun u => ((u.1 : ℚ), (u.2 : ℚ))))).x0 ≤ v.1 ∧
          min (rangeOfList ((validVals FU w).map (fun u => ((u.1 : ℚ), (u.2 : ℚ))))).y0
              (rangeOfList ((validVals FL w).map (fun u => ((u.1 : ℚ), (u.2 : ℚ))))).y0 ≤ v.2) ∧
         (v.1 ≤ max (rangeOfList ((validVals FU w).map (fun u => ((u.1 : ℚ), (u.2 : ℚ))))).x1
              (rangeOfList ((validVals FL w).map (fun u => ((u.1 : ℚ), (u.2 : ℚ))))).x1 ∧
          v.2 ≤ max (rangeOfList ((validVals FU w).map (fun u => ((u.1 : ℚ), (u.2 : ℚ))))).y1
              (rangeOfList ((validVals FL w).map (fun u => ((u.1 : ℚ), (u.2 : ℚ))))).y1)) := by
      intro v hv
      rcases List.mem_map.mp hv with ⟨u, hu, rfl⟩
      rcases mem_validVals hu with ⟨cd, hcd, hFu⟩
      rcases hpt cd hcd u hFu with ⟨vu, vl, hFUu, hFLl, b1, b2, b3, b4⟩
      have hU := rangeOfList_mem_bounds
        (List.mem_map_of_mem (fun u => ((u.1 : ℚ), (u.2 : ℚ))) (mem_validVals_of hcd hFUu))
      have hL := rangeOfList_mem_bounds
        (List.mem_map_of_mem (fun u => ((u.1 : ℚ), (u.2 : ℚ))) (mem_validVals_of hcd hFLl))
      have c1 : min (vl.1 : ℚ) (vu.1 : ℚ) ≤ (u.1 : ℚ) := by exact_mod_cast b1
      have c2 : (u.1 : ℚ) ≤ max (vl.1 : ℚ) (vu.1 : ℚ) := by exact_mod_cast b2
      have c3 : min (vl.2 : ℚ) (vu.2 : ℚ) ≤ (u.2 : ℚ) := by exact_mod_cast b3
      have c4 : (u.2 : ℚ) ≤ max (vl.2 : ℚ) (vu.2 : ℚ) := by exact_mod_cast b4
      refine ⟨⟨?_, ?_⟩, ?_, ?_⟩
      · calc min (rangeOfList ((validVals FU w).map (fun u => ((u.1 : ℚ), (u.2 : ℚ))))).x0
              (rangeOfList ((validVals FL w).map (fun u => ((u.1 : ℚ), (u.2 : ℚ))))).x0
            ≤ min (vu.1 : ℚ) (vl.1 : ℚ) := min_le_min hU.1 hL.1
          _ = min (vl.1 : ℚ) (vu.1 : ℚ) := min_comm _ _
          _ ≤ (u.1 : ℚ) := c1
      · calc min (rangeOfList ((validVals FU w).map (fun u => ((u.1 : ℚ), (u.2 : ℚ))))).y0
              (rangeOfList ((validVals FL w).map (fun u => ((u.1 : ℚ), (u.2 : ℚ))))).y0
            ≤ min (vu.2 : ℚ) (vl.2 : ℚ) := min_le_min hU.2.2.1 hL.2.2.1
          _ = min (vl.2 : ℚ) (vu.2 : ℚ) := min_comm _ _
          _ ≤ (u.2 : ℚ) := c3
      · calc (u.1 : ℚ) ≤ max (vl.1 : ℚ) (vu.1 : ℚ) := c2
          _ = max (vu.1 : ℚ) (vl.1 : ℚ) := max_comm _ _
          _ ≤ max (rangeOfList ((validVals FU w).map (fun u => ((u.1 : ℚ), (u.2 : ℚ))))).x1
              (rangeOfList ((validVals FL w).map (fun u => ((u.1 : ℚ), (u.2 : ℚ))))).x1 :=
            max_le_max hU.2.1 hL.2.1
      · calc (u.2 : ℚ) ≤ max (vl.2 : ℚ) (vu.2 : ℚ) := c4
          _ = max (vu.2 : ℚ) (vl.2 : ℚ) := max_comm _ _
          _ ≤ max (rangeOfList ((validVals FU w).map (fun u => ((u.1 : ℚ), (u.2 : ℚ))))).y1
              (rangeOfList ((validVals FL w).map (fun u => ((u.1 : ℚ), (u.2 : ℚ))))).y1 :=
            max_le_max hU.2.2.2 hL.2.2.2
    have hlb := rangeOfList_lb hMne (fun v hv => (hall v hv).1)
    have hub := rangeOfList_ub hMne (fun v hv => (hall v hv).2)
    exact ⟨hlb.1, hlb.2, hub.1, hub.2⟩

theorem refine_no_hom_mono (s : SeedSetup) (sp : DispField)
    (hux : 0 ≤ s.upx) (huy : 0 ≤ s.upy)
    (hnn : ∀ cd ∈ coordsIn (seed_bbox_of s), ∀ e : ℤ × ℤ,
      sp.px cd.1 cd.2 = some e → 0 ≤ e.1 ∧ 0 ≤ e.2) :
    (refine_no_hom s none).subset (refine_no_hom s (some sp)) := by
  have hm := get_disparity_range_nonneg_max (f := sp.px) (b := seed_bbox_of s) hnn
  show (finalize_range (widen_by_spread none (seed_bbox_of s)
      (get_disparity_range s.sub_disp.px (seed_bbox_of s))) s.upx s.upy).subset
    (finalize_range (widen_by_spread (some sp) (seed_bbox_of s)
      (get_disparity_range s.sub_disp.px (seed_bbox_of s))) s.upx s.upy)
  apply finalize_range_mono hux huy
  show ((get_disparity_range s.sub_disp.px (seed_bbox_of s)).subset
    ⟨(get_disparity_range s.sub_disp.px (seed_bbox_of s)).x0 -
       (get_disparity_range sp.px (seed_bbox_of s)).x1,
     (get_disparity_range s.sub_disp.px (seed_bbox_of s)).y0 -
       (get_disparity_range sp.px (seed_bbox_of s)).y1,
     (get_disparity_range s.sub_disp.px (seed_bbox_of s)).x1 +
       (get_disparity_range sp.px (seed_bbox_of s)).x1,
     (get_disparity_range s.sub_disp.px (seed_bbox_of s)).y1 +
       (get_disparity_range sp.px (seed_bbox_of s)).y1⟩)
  refine ⟨?_, ?_, ?_, ?_⟩ <;> dsimp only
  · linarith [hm.1]
  · linarith [hm.2]
  · linarith [hm.1]
  · linarith [hm.2]

theorem refine_hom_mono (s : SeedSetup) (sp : DispField) (h : Mat3)
    (hux : 0 ≤ s.upx) (huy : 0 ≤ s.upy)
    (hval : ∀ cd ∈ coordsIn (seed_bbox_of s), ∀ d : ℤ × ℤ,
      s.sub_disp.px cd.1 cd.2 = some d → ∃ e : ℤ × ℤ, sp.px cd.1 cd.2 = some e)
    (hden : ∀ cd ∈ coordsIn (seed_bbox_of s), ∀ d e : ℤ × ℤ,
      s.sub_disp.px cd.1 cd.2 = some d → sp.px cd.1 cd.2 = some e →
      0 < hom_den h ((cd.1 : ℚ) + ((d.1 - e.1 : ℤ) : ℚ)) ((cd.2 : ℚ) + ((d.2 - e.2 : ℤ) : ℚ)) ∧
      0 < hom_den h ((cd.1 : ℚ) + ((d.1 + e.1 : ℤ) : ℚ)) ((cd.2 : ℚ) + ((d.2 + e.2 : ℤ) : ℚ))) :
    (refine_hom s h none).subset (refine_hom s h (some sp)) := by
  show (finalize_range (get_disparity_range (transform_disparities h s.sub_disp.px)
      (seed_bbox_of s)) s.upx s.upy).subset
    (finalize_range (Box.union
      (get_disparity_range (transform_disparities h (mask_add s.sub_disp.px sp.px))
        (seed_bbox_of s))
      (get_disparity_range (transform_disparities h (mask_sub s.sub_disp.px sp.px))
        (seed_bbox_of s))) s.upx s.upy)
  apply finalize_range_mono hux huy
  refine range_union_bound ?_ ?_
  · intro cd hcd vm hvm
    cases hfd : s.sub_disp.px cd.1 cd.2 with
    | none =>
      rw [transform_disparities] at hvm
      simp [hfd] at hvm
    | some d =>
      have hvm2 : vm = tdisp h cd.1 cd.2 d := by
        rw [transform_disparities] at hvm
        simp [hfd] at hvm
        exact hvm.symm
      obtain ⟨e, he⟩ := hval cd hcd d hfd
      obtain ⟨hdl, hdu⟩ := hden cd hcd d e hfd he
      have hbet := tdisp_between h cd.1 cd.2 d e hdl hdu
      refine ⟨tdisp h cd.1 cd.2 (d.1 + e.1, d.2 + e.2),
              tdisp h cd.1 cd.2 (d.1 - e.1, d.2 - e.2), ?_, ?_, ?_, ?_, ?_, ?_⟩
      · simp [transform_disparities, mask_add, hfd, he]
      · simp [transform_disparities, mask_sub, hfd, he]
      · rw [hvm2]; exact hbet.1
      · rw [hvm2]; exact hbet.2.1
      · rw [hvm2]; exact hbet.2.2.1
      · rw [hvm2]; exact hbet.2.2.2
  · intro cd hcd hFnone
    have hfd : s.sub_disp.px cd.1 cd.2 = none := by
      rw [transform_disparities] at hFnone
      simpa using hFnone
    constructor
    · cases hg2 : sp.px cd.1 cd.2 <;>
        simp [transform_disparities, mask_add, hfd, hg2]
    · cases hg2 : sp.px cd.1 cd.2 <;>
        simp [transform_disparities, mask_sub, hfd, hg2]

/-- The statement of claim C5: an all-zero spread field refines exactly like
no spread field (on both paths), and supplying a spread field widens — never
shrinks — the refined search range relative to the same seed with zero
spread, on both the homography-free path (symmetric growth by the spread
box's max corner) and the homography path (union of the transformed
seed+spread and seed-spread bounding boxes). -/
def ClaimC5Statement (s : SeedSetup) (sp : DispField) (h : Mat3) (cz rz : ℤ) : Prop :=
  (refine_no_hom s (some (zero_spread cz rz)) = refine_no_hom s none) ∧
  (refine_hom s h (some (zero_spread cz rz)) = refine_hom s h none) ∧
  (refine_no_hom s none).subset (refine_no_hom s (some sp)) ∧
  (refine_hom s h none).subset (refine_hom s h (some sp))

/-- Claim C5: with nonnegative per-axis upscale factors, a spread field that
is nonnegative (an uncertainty radius), valid wherever the seed is valid,
and — on the homography path — homogeneous denominators positive at the two
displaced evaluation points of every valid cell, the refined search range
with the spread contains the refined search range with zero spread, on both
the homography-free and the homography paths. -/
theorem claim_C5_monotonic_widening (s : SeedSetup) (sp : DispField) (h : Mat3)
    (cz rz : ℤ) (hux : 0 ≤ s.upx) (huy : 0 ≤ s.upy)
    (hnn : ∀ cd ∈ coordsIn (seed_bbox_of s), ∀ e : ℤ × ℤ,
      sp.px cd.1 cd.2 = some e → 0 ≤ e.1 ∧ 0 ≤ e.2)
    (hval : ∀ cd ∈ coordsIn (seed_bbox_of s), ∀ d : ℤ × ℤ,
      s.sub_disp.px cd.1 cd.2 = some d → ∃ e : ℤ × ℤ, sp.px cd.1 cd.2 = some e)
    (hden : ∀ cd ∈ coordsIn (seed_bbox_of s), ∀ d e : ℤ × ℤ,
      s.sub_disp.px cd.1 cd.2 = some d → sp.px cd.1 cd.2 = some e →
      0 < hom_den h ((cd.1 : ℚ) + ((d.1 - e.1 : ℤ) : ℚ)) ((cd.2 : ℚ) + ((d.2 - e.2 : ℤ) : ℚ)) ∧
      0 < hom_den h ((cd.1 : ℚ) + ((d.1 + e.1 : ℤ) : ℚ)) ((cd.2 : ℚ) + ((d.2 + e.2 : ℤ) : ℚ))) :
    ClaimC5Statement s sp h cz rz := by
  refine ⟨?_, ?_, refine_no_hom_mono s sp hux huy hnn,
    refine_hom_mono s sp h hux huy hval hden⟩
  · show finalize_range (widen_by_spread (some (zero_spread cz rz)) (seed_bbox_of s)
      (get_disparity_range s.sub_disp.px (seed_bbox_of s))) s.upx s.upy =
      refine_no_hom s none
    rw [widen_by_zero_spread]
    rfl
  · show finalize_range (Box.union
      (get_disparity_range
        (transform_disparities h (mask_add s.sub_disp.px (zero_spread cz rz).px))
        (seed_bbox_of s))
      (get_disparity_range
        (transform_disparities h (mask_sub s.sub_disp.px (zero_spread cz rz).px))
        (seed_bbox_of s))) s.upx s.upy =
      refine_hom s h none
    rw [transform_mask_add_zero, transform_mask_sub_zero, Box.union_self]
    rfl

/-- Witness for claim C5: unit upscale, a 2x2 seed with one valid cell of
disparity `(1, 1)`, the constant spread `(1, 0)`, and the identity
homography. -/
theorem claim_C5_witness :
    (0 : ℚ) ≤ 1 ∧
    ClaimC5Statement
      ⟨1, 1, ⟨2, 2, fun i j => if i = 0 ∧ j = 0 then some (1, 1) else none⟩, ⟨0, 0, 2, 2⟩⟩
      ⟨2, 2, fun _ _ => some (1, 0)⟩ ⟨1, 0, 0, 0, 1, 0, 0, 0, 1⟩ 2 2 := by
  refine ⟨by norm_num,
    claim_C5_monotonic_widening _ _ _ 2 2 (by norm_num) (by norm_num) ?_ ?_ ?_⟩
  · intro cd hcd e he
    have he2 : e = ((1 : ℤ), (0 : ℤ)) := by
      injection he with hh
      exact hh.symm
    rw [he2]
    exact ⟨by norm_num, le_refl 0⟩
  · intro cd hcd d hd
    exact ⟨(1, 0), rfl⟩
  · intro cd hcd d e hd he
    constructor <;> norm_num [hom_den]

/-- Counterexample inputs for claim C5: unit upscale, a 1x1 seed with one
valid cell of disparity `(1, 0)`, a constant nonnegative spread `(1, 0)`,
and the homography `[[1,0,0],[0,1,0],[-2,0,3]]`, whose homogeneous
denominator changes sign between `seed - spread` and `seed + spread`. -/
def c5_seed : SeedSetup :=
  ⟨1, 1, ⟨1, 1, fun i j => if i = 0 ∧ j = 0 then some (1, 0) else none⟩, ⟨0, 0, 1, 1⟩⟩

/-- The constant spread field `(1, 0)` of the C5 counterexample. -/
def c5_spread : DispField := ⟨1, 1, fun _ _ => some (1, 0)⟩

/-- The sign-flipping homography of the C5 counterexample. -/
def c5_hom : Mat3 := ⟨1, 0, 0, 0, 1, 0, -2, 0, 3⟩

/-- Claim C5 counterexample: on the homography path, an all-zero spread
field reproduces the no-spread range exactly, yet this concrete non-zero
(and nonnegative) spread field yields a refined range that does *not*
contain the zero-spread range: the homogeneous denominator changes sign
between the two displaced points, so the transformed seed lies outside the
union of the transformed `seed + spread` and `seed - spread` boxes. -/
theorem claim_C5_counterexample :
    refine_hom c5_seed c5_hom (some (zero_spread 1 1)) =
      refine_hom c5_seed c5_hom none ∧
    c5_spread.px 0 0 = some (1, 0) ∧
    ¬ (refine_hom c5_seed c5_hom none).subset
      (refine_hom c5_seed c5_hom (some c5_spread)) := by
  have hsb : seed_bbox_of c5_seed = ⟨0, 0, 1, 1⟩ := by
    norm_num [seed_bbox_of, c5_seed, qtrunc, Box.expand, Box.crop, seed_extent]
  have hco : coordsIn ⟨0, 0, 1, 1⟩ = [((0 : ℤ), (0 : ℤ))] := by decide
  have hvm : validVals (transform_disparities c5_hom c5_seed.sub_disp.px) ⟨0, 0, 1, 1⟩ =
      [((1 : ℤ), (0 : ℤ))] := by
    unfold validVals
    rw [hco]
    norm_num [transform_disparities, c5_seed, tdisp, c5_hom,
      hom_num_x, hom_num_y, hom_den, round_eq, List.filterMap]
  have hvu : validVals
      (transform_disparities c5_hom (mask_add c5_seed.sub_disp.px c5_spread.px))
      ⟨0, 0, 1, 1⟩ = [((-2 : ℤ), (0 : ℤ))] := by
    unfold validVals
    rw [hco]
    norm_num [transform_disparities, mask_add, c5_seed, c5_spread, tdisp, c5_hom,
      hom_num_x, hom_num_y, hom_den, round_eq, List.filterMap]
  have hvl : validVals
      (transform_disparities c5_hom (mask_sub c5_seed.sub_disp.px c5_spread.px))
      ⟨0, 0, 1, 1⟩ = [((0 : ℤ), (0 : ℤ))] := by
    unfold validVals
    rw [hco]
    norm_num [transform_disparities, mask_sub, c5_seed, c5_spread, tdisp, c5_hom,
      hom_num_x, hom_num_y, hom_den, round_eq, List.filterMap]
  have hgd : get_disparity_range (transform_disparities c5_hom c5_seed.sub_disp.px)
      ⟨0, 0, 1, 1⟩ = ⟨1, 0, 1, 0⟩ := by
    unfold get_disparity_range
    rw [hvm]
    norm_num [rangeOfList]
  have hgdu : get_disparity_range
      (transform_disparities c5_hom (mask_add c5_seed.sub_disp.px c5_spread.px))
      ⟨0, 0, 1, 1⟩ = ⟨-2, 0, -2, 0⟩ := by
    unfold get_disparity_range
    rw [hvu]
    norm_num [rangeOfList]
  have hgdl : get_disparity_range
      (transform_disparities c5_hom (mask_sub c5_seed.sub_disp.px c5_spread.px))
      ⟨0, 0, 1, 1⟩ = ⟨0, 0, 0, 0⟩ := by
    unfold get_disparity_range
    rw [hvl]
    norm_num [rangeOfList]
  have h1 : refine_hom c5_seed c5_hom none = ⟨0, -1, 2, 1⟩ := by
    show finalize_range (get_disparity_range
      (transform_disparities c5_hom c5_seed.sub_disp.px) (seed_bbox_of c5_seed))
      c5_seed.upx c5_seed.upy = _
    rw [hsb, hgd]
    norm_num [finalize_range, grow_bbox_to_int, Box.expand, c5_seed]
  have h2 : refine_hom c5_seed c5_hom (some c5_spread) = ⟨-3, -1, 1, 1⟩ := by
    show finalize_range (Box.union
      (get_disparity_range
        (transform_disparities c5_hom (mask_add c5_seed.sub_disp.px c5_spread.px))
        (seed_bbox_of c5_seed))
      (get_disparity_range
        (transform_disparities c5_hom (mask_sub c5_seed.sub_disp.px c5_spread.px))
        (seed_bbox_of c5_seed))) c5_seed.upx c5_seed.upy = _
    rw [hsb, hgdu, hgdl]
    norm_num [finalize_range, grow_bbox_to_int, Box.expand, Box.union, c5_seed]
  refine ⟨?_, rfl, ?_⟩
  · show finalize_range (Box.union
      (get_disparity_range
        (transform_disparities c5_hom (mask_add c5_seed.sub_disp.px (zero_spread 1 1).px))
        (seed_bbox_of c5_seed))
      (get_disparity_range
        (transform_disparities c5_hom (mask_sub c5_seed.sub_disp.px (zero_spread 1 1).px))
        (seed_bbox_of c5_seed))) c5_seed.upx c5_seed.upy =
      refine_hom c5_seed c5_hom none
    rw [transform_mask_add_zero, transform_mask_sub_zero, Box.union_self]
    rfl
  · rw [h1, h2]
    decide
